import Mathlib

/-!
Verification of the PyABS binary-structure decoder.

This file gives a shallow embedding of the two source modules
`HexUtils.py` and `AdvancedBinaryStructure.py`:

* byte buffers are `List Nat` with every element `< 256`;
* Python exceptions become an explicit error type threaded through `Except`;
* the recursive field factory is defined with an explicit fuel parameter
  (the source's dynamic-array element loop is not structurally recursive,
  and can in fact diverge on a zero-width element specification; running
  out of fuel is reported as its own error and never identified with any
  source exception);
* Python's mutable decode context (a dict shared by reference) becomes an
  association list that every decoding function receives and returns.
-/

namespace PyABS

/-- The error kinds of the two modules: `AbsFieldSpecError`, `AbsDecodingError`,
`AbsOutOfRangeError`, `HexUtilsInputSizeError`, `HexUtilsParamError`, plus
`fuelOut` marking exhaustion of the termination fuel (source: divergence). -/
inductive Err where
  | absSpec
  | absDecoding
  | absOutOfRange
  | hexInputSize
  | hexParam
  | fuelOut
deriving DecidableEq, Repr

/-- Total indexing into a byte list; `data[i]` where all call sites either
guarantee `i` is in range or explicitly substitute `0x00` for missing bytes
(as the u64 padding in `cross_byte_left_shift` does). -/
def getPad (data : List Nat) (i : Nat) : Nat := data.getD i 0

/-- `to_bitwise_addr(offset)` from HexUtils: `offset // 8, offset % 8`. -/
def to_bitwise_addr (offset : Nat) : Nat × Nat := (offset / 8, offset % 8)

/-- `to_offset(byte_addr, byte_offset)` from HexUtils. -/
def to_offset (byte_addr byte_offset : Nat) : Nat := byte_addr * 8 + byte_offset

/-- `to_u64` from HexUtils: packs eight bytes, big-endian. -/
def to_u64 (u8_0 u8_1 u8_2 u8_3 u8_4 u8_5 u8_6 u8_7 : Nat) : Nat :=
  (u8_0 <<< 56) + (u8_1 <<< 48) + (u8_2 <<< 40) + (u8_3 <<< 32) +
  (u8_4 <<< 24) + (u8_5 <<< 16) + (u8_6 <<< 8) + u8_7

/-- `left_shift_64(u64, shift)` from HexUtils: returns the pair
(discarded bits, retained bits); `HexUtilsParamError` unless `0 ≤ shift ≤ 64`. -/
def left_shift_64 (u64 shift : Nat) : Except Err (Nat × Nat) :=
  if shift ≤ 64 then
    let l_discarded_mask := (0xFFFFFFFFFFFFFFFF <<< (64 - shift)) &&& 0xFFFFFFFFFFFFFFFF
    let l_discarded := (u64 &&& l_discarded_mask) >>> (64 - shift)
    let l_retained := (u64 <<< shift) &&& 0xFFFFFFFFFFFFFFFF
    .ok (l_discarded, l_retained)
  else
    .error .hexParam

/-- A Python list comprehension over a fallible function: the first raised
exception propagates, otherwise the list of results is produced. -/
def mapExcept (f : α → Except Err β) : List α → Except Err (List β)
  | [] => .ok []
  | a :: l => do
    let b ← f a
    let l' ← mapExcept f l
    .ok (b :: l')

/-- The u64 group `j` built by the first step of `cross_byte_left_shift`:
`to_u64(*[data[8*j + i] if 8*j + i < len(data) else 0x00 for i in range(8)])`. -/
def group64 (data : List Nat) (j : Nat) : Nat :=
  to_u64 (getPad data (8 * j)) (getPad data (8 * j + 1)) (getPad data (8 * j + 2))
    (getPad data (8 * j + 3)) (getPad data (8 * j + 4)) (getPad data (8 * j + 5))
    (getPad data (8 * j + 6)) (getPad data (8 * j + 7))

/-- `cross_byte_left_shift(data, shift)` from HexUtils: packs the bytes into
64-bit groups, shifts each group once, ORs each group's retained bits with the
bits discarded by the following group (0 for the last), unpacks the groups back
into bytes and trims to the input length. -/
def cross_byte_left_shift (data : List Nat) (shift : Nat) : Except Err (List Nat) := do
  let l_length := data.length
  let l_nb_u64s := (l_length + 7) / 8
  let l_u64s := (List.range l_nb_u64s).map (fun j => group64 data j)
  let l_shifted_tuples ← mapExcept (fun u => left_shift_64 u shift) l_u64s
  let l_tuples := l_shifted_tuples ++ [(0, 0)]
  let l_shifted_u64s :=
    List.zipWith (fun d r => d ||| r) ((l_tuples.drop 1).map Prod.fst) (l_tuples.map Prod.snd)
  let l_shifted_data_u8 :=
    (l_shifted_u64s.map (fun u =>
      (List.range 8).map (fun i => (u &&& (0xFF <<< (8 * (8 - 1 - i)))) >>> (8 * (8 - 1 - i))))).flatten
  .ok (l_shifted_data_u8.take l_length)

/-- `extract(data, offset, width)` from HexUtils: the `width` bits starting at
bit `offset`, left-aligned, with the final byte zero-padded on the right.
Python's `~(0xFF >> k) & 0xFF` is the complement inside 8 bits, written here
as the equivalent `0xFF ^^^ (0xFF >>> k)`. -/
def extract (data : List Nat) (offset width : Nat) : Except Err (List Nat) := do
  let l_start_byte := (to_bitwise_addr offset).1
  let l_start_offset := (to_bitwise_addr offset).2
  let l_end_byte := (to_bitwise_addr (offset + width - 1)).1
  if l_end_byte < data.length then do
    let l_shifted ←
      cross_byte_left_shift ((data.drop l_start_byte).take (l_end_byte + 1 - l_start_byte))
        l_start_offset
    let l_last_byte := (to_bitwise_addr (width - 1)).1
    let l_last_bit := (to_bitwise_addr (width - 1)).2
    let l_masked := l_shifted.set l_last_byte
      ((getPad l_shifted l_last_byte) &&& (0xFF ^^^ (0xFF >>> (l_last_bit + 1))))
    .ok (l_masked.take (l_last_byte + 1))
  else
    .error .hexInputSize

/-!
### Reference bit-shifting extraction (from the specification's words)

The specification demands that `extract` agree bit-for-bit with a naive
per-bit reference: output byte `j` carries, at bit position `p` (most
significant first), the input bit at linear offset `offset + 8*j + p` when
`8*j + p < width` and a padding zero otherwise.
-/

/-- Bit `n` of the byte stream, most-significant bit of each byte first;
reads past the end of the buffer yield 0. -/
def streamBit (data : List Nat) (n : Nat) : Bool :=
  Nat.testBit (getPad data (n / 8)) (7 - n % 8)

/-- Output byte `j` of the naive reference extraction: each selected input bit
is shifted individually into its output position. -/
def refByte (data : List Nat) (offset width j : Nat) : Nat :=
  ((List.range 8).map (fun p =>
    if 8 * j + p < width ∧ streamBit data (offset + (8 * j + p)) then 1 <<< (7 - p) else 0)).sum

/-- The naive per-bit-shifting reference implementation of `extract`. -/
def extract_reference (data : List Nat) (offset width : Nat) : List Nat :=
  (List.range ((width + 7) / 8)).map (refByte data offset width)

/-- From the specification's words: the unsigned big-endian interpretation of
the `width` bits starting at `offset`, the sum of `2^(width-1-i)` over each
set bit `i`. -/
def bigEndianValue (data : List Nat) (offset width : Nat) : Nat :=
  ((List.range width).map (fun i =>
    if streamBit data (offset + i) then 2 ^ (width - 1 - i) else 0)).sum

/-- From the specification's words: the whole trailing bytes of the input that
come after the last consumed bit — the first hexadecimal digit kept belongs to
the first byte lying entirely beyond bit `decodedBits - 1`. -/
def remaining_after_last_bit (hexDigits : List Nat) (decodedBits : Nat) : List Nat :=
  hexDigits.drop (2 * ((decodedBits + 7) / 8))

/-- Proof-side view of `cross_byte_left_shift`: the shifted u64 group `q`
ORed with the bits discarded by group `q + 1` (`getPad` makes the final
partial group and the appended `(0, 0)` tuple uniform). -/
def carry64 (data : List Nat) (s q : Nat) : Nat :=
  (group64 data (q + 1) >>> (64 - s)) ||| ((group64 data q <<< s) % 2 ^ 64)

/-- Proof-side view of `cross_byte_left_shift`: output byte `i`, cut out of
the shifted u64 group `i / 8` exactly as the unpacking step does. -/
def carryByte (data : List Nat) (s i : Nat) : Nat :=
  (carry64 data s (i / 8) &&& (0xFF <<< (8 * (8 - 1 - i % 8)))) >>> (8 * (8 - 1 - i % 8))

/-!
### AdvancedBinaryStructure: data model

Field specifications (`AbsFactory.spec_type`'s input grammar) and decoded
fields.  The built-in helper classes `AbsFieldAscii`, `AbsFieldRawData` and
the dynamic array's internal `SizeField`/`LengthField` (plain integer decoders
with special display) are the helper kinds the engine itself uses.
-/

/-- The built-in helper classes. `sizeField`/`lengthField` derive from
`AbsFieldInteger` and inherit its `is_valid_spec`. -/
inductive Helper where
  | ascii
  | rawData
  | sizeField
  | lengthField
deriving DecidableEq, Repr

/-- `is_valid_spec` of each helper class, as a function of the spec's width. -/
def Helper.is_valid : Helper → Nat → Bool
  | .ascii, w => w % 8 == 0
  | .rawData, _ => true
  | .sizeField, w => decide (2 ≤ w ∧ w ≤ 64)
  | .lengthField, w => decide (2 ≤ w ∧ w ≤ 64)

/-- Dynamic-array header modes `NB_ELTS` / `SIZE_EXCL` / `SIZE_INCL`. -/
inductive ArrMode where
  | nbElts
  | sizeExcl
  | sizeIncl
deriving DecidableEq, Repr

/-- The primitive Python values a decoded field can carry (struct and array
fields carry their children separately and have `_value = None`). -/
inductive AbsValue where
  | vnone
  | vint (n : Nat)
  | vbool (b : Bool)
  | vstr (s : String)
deriving DecidableEq, Repr

/-- Python `==` on those values: `bool` and `int` compare across types
(`False == 0`, `True == 1`), which is what the switch branch lookup uses. -/
def pyEq : AbsValue → AbsValue → Bool
  | .vnone, .vnone => true
  | .vint n, .vint m => n == m
  | .vbool b, .vbool c => b == c
  | .vbool b, .vint m => (if b then 1 else 0) == m
  | .vint n, .vbool c => n == (if c then 1 else 0)
  | .vstr s, .vstr t => s == t
  | _, _ => false

/-- A decoded field: identifier, consumed bit width, value, tagged flag and
raw consumed bytes.  A struct additionally carries its ordered child mapping;
a dynamic array carries its header field (under its key `size`/`length`) and
its element list. -/
inductive AbsField where
  | prim (id : String) (bitWidth : Nat) (value : AbsValue) (tagged : Bool) (raw : List Nat)
  | struct (id : String) (bitWidth : Nat) (entries : List (String × AbsField)) (raw : List Nat)
  | dynArray (id : String) (bitWidth : Nat) (headerKey : String) (header : AbsField)
      (elts : List AbsField) (raw : List Nat)

/-- Accessor `id()`. -/
def AbsField.id : AbsField → String
  | .prim i _ _ _ _ => i
  | .struct i _ _ _ => i
  | .dynArray i _ _ _ _ _ => i

/-- Accessor `bit_width()`. -/
def AbsField.bitWidth : AbsField → Nat
  | .prim _ w _ _ _ => w
  | .struct _ w _ _ => w
  | .dynArray _ w _ _ _ _ => w

/-- Accessor `value()`; struct and array fields never assign `_value`. -/
def AbsField.value : AbsField → AbsValue
  | .prim _ _ v _ _ => v
  | .struct _ _ _ _ => .vnone
  | .dynArray _ _ _ _ _ _ => .vnone

/-- Accessor `is_tagged()`; only primitive/helper fields can be tagged. -/
def AbsField.isTagged : AbsField → Bool
  | .prim _ _ _ t _ => t
  | .struct _ _ _ _ => false
  | .dynArray _ _ _ _ _ _ => false

/-- `value()` of a dynamic-array header, which is always an integer field
(`int(True) = 1` for the impossible boolean case). -/
def AbsField.intValue (f : AbsField) : Nat :=
  match f.value with
  | .vint n => n
  | .vbool b => if b then 1 else 0
  | _ => 0

/-- Field specifications, the grammar accepted by `AbsFactory.spec_type`:
`placeholder` covers the forms `'id'`/`('id',)`; `prim id w tagged` covers
`('id', w)` and `('id', w, TAGGED)` (boolean when `w = 1`, integer when
`2 ≤ w ≤ 64`, placeholder when `w = 0` untagged); `helper` covers
`('id', w, Class[, TAGGED])`; `struct` covers `('id', [...])`; `switch` covers
`[SWITCH, target, {value: spec, ...}]`; `dynArray` covers
`[DYN_ARRAY, id, mode, unit[, element_spec_or_helper]]`. -/
inductive AbsSpec where
  | placeholder (id : String)
  | prim (id : String) (width : Nat) (tagged : Bool)
  | helper (id : String) (width : Nat) (h : Helper) (tagged : Bool)
  | struct (id : String) (children : List AbsSpec)
  | switch (target : String) (branches : List (AbsValue × AbsSpec))
  | dynArray (id : String) (mode : ArrMode) (unit : Nat) (elem : Option (List AbsSpec ⊕ Helper))

mutual

/-- `AbsFactory.is_valid_spec`: does `spec_type` accept the specification? -/
def spec_valid : AbsSpec → Bool
  | .placeholder _ => true
  | .prim _ w tagged => if tagged then decide (1 ≤ w ∧ w ≤ 64) else decide (w ≤ 64)
  | .helper _ w h tagged => (tagged || decide (1 ≤ w)) && h.is_valid w
  | .struct _ children => specList_valid children
  | .switch _ branches => branches_valid branches
  | .dynArray _ _ unit elem =>
    (unit == 8 || unit == 16 || unit == 32 || unit == 64) &&
    (match elem with
     | none => true
     | some (.inl children) => specList_valid children
     | some (.inr h) => h.is_valid unit)

/-- `all(AbsFactory.is_valid_spec(s) for s in children)`. -/
def specList_valid : List AbsSpec → Bool
  | [] => true
  | s :: rest => spec_valid s && specList_valid rest

/-- `all(AbsFactory.is_valid_spec(s) for s in branches.values())`. -/
def branches_valid : List (AbsValue × AbsSpec) → Bool
  | [] => true
  | (_, s) :: rest => spec_valid s && branches_valid rest

end

/-- The field kinds returned by `AbsFactory.spec_type`. -/
inductive SpecType where
  | tPlaceholder
  | tBoolean
  | tInteger
  | tHelperClass
  | tStruct
  | tSwitch
  | tDynArray
deriving DecidableEq, Repr

/-- `AbsFactory.spec_type(spec)`: classify a specification or raise
`AbsFieldSpecError`.  Mirrors the source's branching on tuple length and
width: untagged width 0 is a placeholder, width 1 a boolean, widths 2..64 an
integer, anything larger an error unless a helper class is named; helper,
struct, switch and array specifications are recursively validated. -/
def spec_type (spec : AbsSpec) : Except Err SpecType :=
  match spec with
  | .placeholder _ => .ok .tPlaceholder
  | .prim _ w tagged =>
    if w = 0 then (if tagged then .error .absSpec else .ok .tPlaceholder)
    else if w = 1 then .ok .tBoolean
    else if w ≤ 64 then .ok .tInteger
    else .error .absSpec
  | .helper _ w h tagged =>
    -- the untagged 3-tuple branch of `spec_type` requires a width of at least 1
    -- before consulting the helper class; the tagged 4-tuple branch does not
    if (tagged || decide (1 ≤ w)) && h.is_valid w then .ok .tHelperClass
    else .error .absSpec
  | .struct _ children => if specList_valid children then .ok .tStruct else .error .absSpec
  | .switch _ branches => if branches_valid branches then .ok .tSwitch else .error .absSpec
  | .dynArray _ _ unit elem =>
    if unit = 8 ∨ unit = 16 ∨ unit = 32 ∨ unit = 64 then
      match elem with
      | none => .ok .tDynArray
      | some (.inl children) =>
        if specList_valid children then .ok .tDynArray else .error .absSpec
      | some (.inr h) => if h.is_valid unit then .ok .tDynArray else .error .absSpec
    else .error .absSpec

/-!
### AdvancedBinaryStructure: decoding
-/

/-- The decode context: a Python dict from tagged identifiers to their decoded
fields.  The source shares one mutable dict down the recursion; here every
decoding function receives it and returns its updated version. -/
abbrev Ctx := List (String × AbsField)

/-- Dict lookup `context[id]` / membership `id in context`. -/
def ctxFind (c : Ctx) (id : String) : Option AbsField :=
  (c.find? (fun p => p.1 == id)).map Prod.snd

/-- `OrderedDict.__setitem__`: replace in place if the key exists (keeping its
position), otherwise append. -/
def odInsert (m : List (String × AbsField)) (k : String) (v : AbsField) :
    List (String × AbsField) :=
  if m.any (fun p => p.1 == k) then m.map (fun p => if p.1 == k then (k, v) else p)
  else m ++ [(k, v)]

/-- Switch branch lookup `l_target_key in spec[2]` / `spec[2][l_target_key]`:
dict lookup keyed by the target field's decoded value under Python `==`. -/
def branchLookup (branches : List (AbsValue × AbsSpec)) (v : AbsValue) : Option AbsSpec :=
  (branches.find? (fun p => pyEq v p.1)).map Prod.snd

/-- One entry of the bit map built by `AbsFieldInteger._decode_data`:
`(data[addr // 8] & 2**(8 - addr % 8 - 1)) >> (8 - addr % 8 - 1)`. -/
def bit_at (data : List Nat) (addr : Nat) : Nat :=
  (getPad data (to_bitwise_addr addr).1 &&& 2 ^ (8 - (to_bitwise_addr addr).2 - 1)) >>>
    (8 - (to_bitwise_addr addr).2 - 1)

/-- `AbsFieldInteger._decode_data`: elevate each 1-bit of the `width` bits
starting at `offset` to its power of two and sum. -/
def decode_integer_value (data : List Nat) (offset width : Nat) : Nat :=
  ((List.range width).map (fun i =>
    if bit_at data (offset + i) = 1 then 2 ^ (width - i - 1) else 0)).sum

/-- `AbsFieldBoolean._decode_data`'s raw bit:
`(data[0] & (1 << 8 - offset - 1)) >> (8 - offset - 1)`. -/
def decode_boolean_bit (data : List Nat) (offset : Nat) : Nat :=
  (getPad data 0 &&& (1 <<< (8 - offset - 1))) >>> (8 - offset - 1)

/-- `'{:c}'.format(i)` for each extracted byte (AbsFieldAscii). -/
def ascii_of_bytes (l : List Nat) : String :=
  String.mk (l.map (fun b => Char.ofNat b))

/-- One uppercase hexadecimal digit. -/
def hexDigitChar (n : Nat) : Char :=
  if n < 10 then Char.ofNat (48 + n) else Char.ofNat (55 + n)

/-- `'{:02X}'.format(i)` for a byte value. -/
def hex2 (b : Nat) : String :=
  String.mk [hexDigitChar (b / 16 % 16), hexDigitChar (b % 16)]

/-- `AbsFieldRawData._decode_data`: two hex digits per extracted byte. -/
def hex_of_bytes (l : List Nat) : String :=
  String.join (l.map hex2)

/-- `AbsFieldDynArray._decode_spec`'s element specification: the optional
fifth spec item, else a plain integer of the header's unit width. -/
def dynChildSpec (unit : Nat) : Option (List AbsSpec ⊕ Helper) → AbsSpec
  | none => .prim "child" unit false
  | some (.inl children) => .struct "child" children
  | some (.inr h) => .helper "child" unit h false

/-- The tagged-child registration step of `AbsFieldStruct._decode_data`: a
tagged child whose identifier is already in the shared context raises
`AbsDecodingError`, otherwise it is inserted; untagged children leave the
context unchanged. -/
def registerTagged (child : AbsField) (ctx : Ctx) : Except Err Ctx :=
  if child.isTagged then
    match ctxFind ctx child.id with
    | some _ => .error .absDecoding
    | none => .ok (ctx ++ [(child.id, child)])
  else .ok ctx

mutual

/-- `AbsFactory.make(spec, data, offset, context)` with explicit fuel:
classify the specification, then dispatch to the matching variant's decode.
Every variant except the switch first enforces `_parse_args`'s precondition
`offset < 8` and afterwards captures its raw bytes via `extract` when its
width is positive.  The updated decode context is returned alongside the
field (`none` stays `none`: a locally created context is discarded). -/
def make : Nat → AbsSpec → List Nat → Nat → Option Ctx → Except Err (AbsField × Option Ctx)
  | 0, _, _, _, _ => .error .fuelOut
  | fuel + 1, spec, data, offset, ctx => do
    let _ ← spec_type spec
    match spec with
    | .placeholder id =>
      if offset ≥ 8 then .error .absDecoding
      else .ok (.prim id 0 .vnone false [], ctx)
    | .prim id w tagged =>
      if offset ≥ 8 then .error .absDecoding
      else if w = 0 then .ok (.prim id 0 .vnone false [], ctx)
      else if w = 1 then do
        let v := decode_boolean_bit data offset
        let b ← if v = 0 then pure false
                else if v = 1 then pure true
                else .error .absDecoding
        let raw ← extract data offset 1
        .ok (.prim id 1 (.vbool b) tagged raw, ctx)
      else do
        let v := decode_integer_value data offset w
        let raw ← extract data offset w
        .ok (.prim id w (.vint v) tagged raw, ctx)
    | .helper id w h tagged =>
      if offset ≥ 8 then .error .absDecoding
      else
        match h with
        | .ascii => do
          let l ← extract data offset w
          let raw ← extract data offset w
          .ok (.prim id w (.vstr (ascii_of_bytes l)) tagged raw, ctx)
        | .rawData => do
          let l ← extract data offset w
          let raw ← extract data offset w
          .ok (.prim id w (.vstr (hex_of_bytes l)) tagged raw, ctx)
        | .sizeField => do
          let v := decode_integer_value data offset w
          let raw ← extract data offset w
          .ok (.prim id w (.vint v) tagged raw, ctx)
        | .lengthField => do
          let v := decode_integer_value data offset w
          let raw ← extract data offset w
          .ok (.prim id w (.vint v) tagged raw, ctx)
    | .struct id children =>
      if offset ≥ 8 then .error .absDecoding
      else do
        let lctx := ctx.getD []
        let (fields, endOff, ctx1) ← structChildren fuel children data offset lctx
        let w := endOff - offset
        let entries := fields.foldl (fun m f => odInsert m f.id f) []
        let raw ← if w > 0 then extract data offset w else pure []
        .ok (.struct id w entries raw, if ctx.isSome then some ctx1 else none)
    | .switch target branches =>
      match ctx with
      | none => .error .absDecoding
      | some c =>
        match ctxFind c target with
        | none => .error .absDecoding
        | some f =>
          match branchLookup branches f.value with
          | none => .error .absDecoding
          | some bspec => make fuel bspec data offset ctx
    | .dynArray id mode unit elem =>
      if offset ≥ 8 then .error .absDecoding
      else do
        let lctx := ctx.getD []
        let hdrSpec : AbsSpec :=
          match mode with
          | .nbElts => .helper "length" unit .lengthField false
          | .sizeExcl => .helper "size" unit .sizeField false
          | .sizeIncl => .helper "size" unit .sizeField false
        let (header, octx1) ← make fuel hdrSpec
          (data.drop (to_bitwise_addr offset).1) (to_bitwise_addr offset).2 (some lctx)
        let off1 := offset + header.bitWidth
        let (elts, endOff) ←
          match mode with
          | .nbElts => nbEltsLoop fuel header.intValue (dynChildSpec unit elem) data off1
          | .sizeIncl =>
            sizeLoop fuel (dynChildSpec unit elem) data
              (offset + header.intValue * header.bitWidth) off1
          | .sizeExcl =>
            sizeLoop fuel (dynChildSpec unit elem) data
              (offset + (header.intValue + 1) * header.bitWidth) off1
        let w := endOff - offset
        let raw ← if w > 0 then extract data offset w else pure []
        .ok (.dynArray id w header.id header elts raw,
             if ctx.isSome then some (octx1.getD lctx) else none)
  termination_by structural fuel => fuel

/-- The child loop of `AbsFieldStruct._decode_data`: decode each child at the
running cursor (slicing the buffer to keep the in-byte offset below 8), check
and register tagged children in the shared context, and return the ordered
child sequence, the final cursor and the final context. -/
def structChildren :
    Nat → List AbsSpec → List Nat → Nat → Ctx → Except Err (List AbsField × Nat × Ctx)
  | 0, _, _, _, _ => .error .fuelOut
  | _ + 1, [], _, offset, ctx => .ok ([], offset, ctx)
  | fuel + 1, s :: rest, data, offset, ctx => do
    let (child, octx1) ←
      make fuel s (data.drop (to_bitwise_addr offset).1) (to_bitwise_addr offset).2 (some ctx)
    let ctx1 := octx1.getD ctx
    let ctx2 ← registerTagged child ctx1
    let (fields, endOff, ctx3) ← structChildren fuel rest data (offset + child.bitWidth) ctx2
    .ok (child :: fields, endOff, ctx3)
  termination_by structural fuel => fuel

/-- The `NB_ELTS` element loop of `AbsFieldDynArray._decode_data`: decode
exactly `n` elements, each with no inherited context. -/
def nbEltsLoop : Nat → Nat → AbsSpec → List Nat → Nat → Except Err (List AbsField × Nat)
  | 0, _, _, _, _ => .error .fuelOut
  | _ + 1, 0, _, _, offset => .ok ([], offset)
  | fuel + 1, n + 1, cs, data, offset => do
    let (e, _) ←
      make fuel cs (data.drop (to_bitwise_addr offset).1) (to_bitwise_addr offset).2 none
    let (rest, endOff) ← nbEltsLoop fuel n cs data (offset + e.bitWidth)
    .ok (e :: rest, endOff)
  termination_by structural fuel => fuel

/-- The `SIZE_EXCL`/`SIZE_INCL` element loop of
`AbsFieldDynArray._decode_data`: `while l_offset < l_end_offset`, decode an
element (with no inherited context) and advance by its width. -/
def sizeLoop : Nat → AbsSpec → List Nat → Nat → Nat → Except Err (List AbsField × Nat)
  | 0, _, _, _, _ => .error .fuelOut
  | fuel + 1, cs, data, endOffset, offset =>
    if offset < endOffset then do
      let (e, _) ←
        make fuel cs (data.drop (to_bitwise_addr offset).1) (to_bitwise_addr offset).2 none
      let (rest, fin) ← sizeLoop fuel cs data endOffset (offset + e.bitWidth)
      .ok (e :: rest, fin)
    else .ok ([], offset)

end

/-- `hex_str_to_u8` from HexUtils, over hexadecimal digit values (one `Nat`
below 16 per input character): raise on odd length, else pair up digits. -/
def pairBytes : List Nat → List Nat
  | d0 :: d1 :: rest => (16 * d0 + d1) :: pairBytes rest
  | _ => []

/-- `hex_str_to_u8`'s length check plus conversion. -/
def hex_str_to_u8 (hexDigits : List Nat) : Except Err (List Nat) :=
  if hexDigits.length % 2 ≠ 0 then .error .hexInputSize else .ok (pairBytes hexDigits)

/-- `"%d bytes + %d bits" % pair`. -/
def format_stat (p : Nat × Nat) : String :=
  toString p.1 ++ " bytes + " ++ toString p.2 ++ " bits"

/-- The mapping built by `AdvancedBinaryStructure.__init__`. -/
structure AbsResult where
  data : List Nat
  decoded_data : AbsField
  remaining_data : List Nat
  stat_decoded : String
  stat_remaining : String

/-- `AdvancedBinaryStructure(hex_str, spec)`: wrap the specification list into
the unnamed root struct, decode from bit 0 with no context, and report the
byte-aligned remaining input and the decoded/remaining statistics strings. -/
def AdvancedBinaryStructure (fuel : Nat) (hexDigits : List Nat) (spec : List AbsSpec) :
    Except Err AbsResult := do
  let bytes ← hex_str_to_u8 hexDigits
  let (root, _) ← make fuel (.struct "root" spec) bytes 0 none
  let l_decoded_bits := root.bitWidth
  let l_not_decoded_bits := hexDigits.length * 4 - l_decoded_bits
  .ok { data := hexDigits
        decoded_data := root
        remaining_data := hexDigits.drop (l_decoded_bits / 8 * 2)
        stat_decoded := format_stat (to_bitwise_addr l_decoded_bits)
        stat_remaining := format_stat (to_bitwise_addr l_not_decoded_bits) }

/-!
### Lemmas: indexed views of lists
-/

lemma getPad_nil (i : Nat) : getPad [] i = 0 := rfl

lemma getPad_lt_of_mem_lt {data : List Nat} (hb : ∀ b ∈ data, b < 256) (i : Nat) :
    getPad data i < 256 := by
  unfold getPad
  rcases h : data[i]? with _ | b
  · simp [h]
  · have hm : b ∈ data := List.getElem?_mem h
    simpa [h] using hb b hm

lemma getPad_eq_getElem {data : List Nat} {i : Nat} (h : i < data.length) :
    getPad data i = data[i] := by
  unfold getPad
  simp [List.getD_eq_getElem?_getD, List.getElem?_eq_getElem h]

lemma getPad_eq_zero_of_le {data : List Nat} {i : Nat} (h : data.length ≤ i) :
    getPad data i = 0 := by
  unfold getPad
  simp [List.getD_eq_getElem?_getD, List.getElem?_eq_none h]

lemma getPad_map_range (f : Nat → Nat) (n i : Nat) :
    getPad ((List.range n).map f) i = if i < n then f i else 0 := by
  unfold getPad
  rcases Nat.lt_or_ge i n with h | h
  · simp [List.getD_eq_getElem?_getD, List.getElem?_map, List.getElem?_range h, h]
  · simp [List.getD_eq_getElem?_getD, List.getElem?_eq_none, h, Nat.not_lt.2 h]

lemma getPad_take (data : List Nat) (m i : Nat) :
    getPad (data.take m) i = if i < m then getPad data i else 0 := by
  unfold getPad
  rcases Nat.lt_or_ge i m with h | h
  · simp [List.getD_eq_getElem?_getD, List.getElem?_take_of_lt h, h]
  · have hlen : (data.take m).length ≤ i := by
      simp only [List.length_take]
      omega
    simp [List.getD_eq_getElem?_getD, List.getElem?_eq_none hlen, Nat.not_lt.2 h]

lemma getPad_drop (data : List Nat) (m i : Nat) :
    getPad (data.drop m) i = getPad data (m + i) := by
  unfold getPad
  rcases Nat.lt_or_ge (m + i) data.length with h | h
  · simp [List.getD_eq_getElem?_getD, List.getElem?_drop,
      List.getElem?_eq_getElem h]
  · have h2 : (data.drop m).length ≤ i := by simp; omega
    simp [List.getD_eq_getElem?_getD, List.getElem?_eq_none, h, h2]

lemma ext_getPad {l₁ l₂ : List Nat} (hlen : l₁.length = l₂.length)
    (h : ∀ i, i < l₁.length → getPad l₁ i = getPad l₂ i) : l₁ = l₂ := by
  apply List.ext_getElem hlen
  intro i h1 h2
  have := h i h1
  rwa [getPad_eq_getElem h1, getPad_eq_getElem h2] at this

lemma mapExcept_ok {f : α → Except Err β} {g : α → β} {l : List α}
    (h : ∀ a ∈ l, f a = .ok (g a)) : mapExcept f l = .ok (l.map g) := by
  induction l with
  | nil => rfl
  | cons a l ih =>
    have ha := h a (by simp)
    have ht : ∀ x ∈ l, f x = .ok (g x) := fun x hx => h x (by simp [hx])
    simp only [mapExcept, ha, ih ht]
    rfl

/-!
### Lemmas: 64-bit shifting
-/

lemma left_shift_64_spec {u : Nat} (hu : u < 2 ^ 64) {s : Nat} (hs : s ≤ 64) :
    left_shift_64 u s = .ok (u >>> (64 - s), (u <<< s) % 2 ^ 64) := by
  have hmask : (0xFFFFFFFFFFFFFFFF : Nat) = 2 ^ 64 - 1 := by norm_num
  -- discarded bits: masking the low 64-s bits away then shifting right is a plain right shift
  have hd : (u &&& ((0xFFFFFFFFFFFFFFFF : Nat) <<< (64 - s) &&& 0xFFFFFFFFFFFFFFFF)) >>>
      (64 - s) = u >>> (64 - s) := by
    apply Nat.eq_of_testBit_eq
    intro t
    simp only [Nat.testBit_shiftRight, Nat.testBit_and, Nat.testBit_shiftLeft, hmask,
      Nat.testBit_two_pow_sub_one]
    rcases Nat.lt_or_ge (64 - s + t) 64 with h | h
    · have h1 : (64 - s + t) - (64 - s) = t := by omega
      have h2 : 64 - s ≤ 64 - s + t := Nat.le_add_right _ _
      have h3 : t < 64 := by omega
      simp [h1, h, h2, h3]
    · have hu2 : u < 2 ^ (64 - s + t) :=
        lt_of_lt_of_le hu (Nat.pow_le_pow_right (by norm_num) h)
      simp [Nat.testBit_lt_two_pow hu2]
  -- retained bits: masking to 64 bits is reduction mod 2^64
  have hr : u <<< s &&& (0xFFFFFFFFFFFFFFFF : Nat) = (u <<< s) % 2 ^ 64 := by
    rw [hmask, Nat.and_pow_two_sub_one_eq_mod]
  unfold left_shift_64
  rw [if_pos hs]
  simp only [hd, hr]

/-!
### Lemmas: bits of packed u64 groups
-/

lemma to_u64_eq (b0 b1 b2 b3 b4 b5 b6 b7 : Nat) :
    to_u64 b0 b1 b2 b3 b4 b5 b6 b7 =
      2 ^ 56 * b0 + (2 ^ 48 * b1 + (2 ^ 40 * b2 + (2 ^ 32 * b3 +
        (2 ^ 24 * b4 + (2 ^ 16 * b5 + (2 ^ 8 * b6 + b7)))))) := by
  unfold to_u64
  simp only [Nat.shiftLeft_eq]
  ring

lemma to_u64_testBit {b0 b1 b2 b3 b4 b5 b6 b7 : Nat}
    (h0 : b0 < 256) (h1 : b1 < 256) (h2 : b2 < 256) (h3 : b3 < 256)
    (h4 : b4 < 256) (h5 : b5 < 256) (h6 : b6 < 256) (h7 : b7 < 256) (t : Nat) :
    (to_u64 b0 b1 b2 b3 b4 b5 b6 b7).testBit t =
      if t < 8 then b7.testBit t
      else if t < 16 then b6.testBit (t - 8)
      else if t < 24 then b5.testBit (t - 16)
      else if t < 32 then b4.testBit (t - 24)
      else if t < 40 then b3.testBit (t - 32)
      else if t < 48 then b2.testBit (t - 40)
      else if t < 56 then b1.testBit (t - 48)
      else if t < 64 then b0.testBit (t - 56)
      else false := by
  have e0 : 2 ^ 48 * b1 + (2 ^ 40 * b2 + (2 ^ 32 * b3 +
      (2 ^ 24 * b4 + (2 ^ 16 * b5 + (2 ^ 8 * b6 + b7))))) < 2 ^ 56 := by omega
  have e1 : 2 ^ 40 * b2 + (2 ^ 32 * b3 +
      (2 ^ 24 * b4 + (2 ^ 16 * b5 + (2 ^ 8 * b6 + b7)))) < 2 ^ 48 := by omega
  have e2 : 2 ^ 32 * b3 + (2 ^ 24 * b4 + (2 ^ 16 * b5 + (2 ^ 8 * b6 + b7))) < 2 ^ 40 := by omega
  have e3 : 2 ^ 24 * b4 + (2 ^ 16 * b5 + (2 ^ 8 * b6 + b7)) < 2 ^ 32 := by omega
  have e4 : 2 ^ 16 * b5 + (2 ^ 8 * b6 + b7) < 2 ^ 24 := by omega
  have e5 : 2 ^ 8 * b6 + b7 < 2 ^ 16 := by omega
  have e6 : b7 < 2 ^ 8 := h7
  rw [to_u64_eq,
    Nat.testBit_mul_pow_two_add _ e0, Nat.testBit_mul_pow_two_add _ e1,
    Nat.testBit_mul_pow_two_add _ e2, Nat.testBit_mul_pow_two_add _ e3,
    Nat.testBit_mul_pow_two_add _ e4, Nat.testBit_mul_pow_two_add _ e5,
    Nat.testBit_mul_pow_two_add _ e6]
  have hfb : ∀ b : Nat, b < 256 → ∀ m, 8 ≤ m → b.testBit m = false := by
    intro b hb m hm
    apply Nat.testBit_lt_two_pow
    calc b < 256 := hb
      _ = 2 ^ 8 := by norm_num
      _ ≤ 2 ^ m := Nat.pow_le_pow_right (by norm_num) hm
  split_ifs <;> first
    | rfl
    | (exfalso; omega)
    | (congr 1; omega)
    | (apply hfb _ (by assumption); omega)
    | (apply hfb b0 h0; omega)

lemma getPad_append (l₁ l₂ : List Nat) (i : Nat) :
    getPad (l₁ ++ l₂) i = if i < l₁.length then getPad l₁ i else getPad l₂ (i - l₁.length) := by
  unfold getPad
  rcases Nat.lt_or_ge i l₁.length with h | h
  · simp [List.getD_eq_getElem?_getD, List.getElem?_append_left h, h]
  · simp [List.getD_eq_getElem?_getD, List.getElem?_append_right h, Nat.not_lt.2 h]

lemma getPad_set (l : List Nat) (k v i : Nat) :
    getPad (l.set k v) i = if i = k ∧ k < l.length then v else getPad l i := by
  unfold getPad
  rcases eq_or_ne i k with rfl | hne
  · rcases Nat.lt_or_ge i l.length with h | h
    · simp [List.getD_eq_getElem?_getD, List.getElem?_set_self, h]
    · rw [List.set_eq_of_length_le h]
      simp [Nat.not_lt.2 h]
  · simp [List.getD_eq_getElem?_getD, List.getElem?_set_ne hne.symm, hne]

lemma length_flatten_map8 (L : List Nat) (f : Nat → Nat → Nat) :
    ((L.map (fun u => (List.range 8).map (f u))).flatten).length = 8 * L.length := by
  induction L with
  | nil => simp
  | cons u L ih =>
    simp only [List.map_cons, List.flatten_cons, List.length_append, ih]
    simp
    omega

lemma getPad_flatten_map8 (L : List Nat) (f : Nat → Nat → Nat) (i : Nat) :
    getPad ((L.map (fun u => (List.range 8).map (f u))).flatten) i =
      if i < 8 * L.length then f (getPad L (i / 8)) (i % 8) else 0 := by
  induction L generalizing i with
  | nil => simp [getPad_nil]
  | cons u L ih =>
    simp only [List.map_cons, List.flatten_cons]
    rw [getPad_append]
    have hlen : ((List.range 8).map (f u)).length = 8 := by simp
    rw [hlen]
    rcases Nat.lt_or_ge i 8 with h | h
    · rw [if_pos h, getPad_map_range, if_pos h]
      have h1 : i < 8 * (u :: L).length := by simp; omega
      have h2 : i / 8 = 0 := by omega
      have h3 : i % 8 = i := by omega
      rw [if_pos h1, h2, h3]
      rfl
    · rw [if_neg (Nat.not_lt.2 h), ih]
      have h2 : i / 8 = (i - 8) / 8 + 1 := by omega
      have h3 : (i - 8) % 8 = i % 8 := by omega
      rcases Nat.lt_or_ge (i - 8) (8 * L.length) with h4 | h4
      · have h5 : i < 8 * (u :: L).length := by simp; omega
        rw [if_pos h4, if_pos h5, h2, h3]
        rfl
      · have h5 : ¬ i < 8 * (u :: L).length := by simp; omega
        rw [if_neg (Nat.not_lt.2 h4), if_neg h5]

lemma group64_lt {data : List Nat} (hb : ∀ b ∈ data, b < 256) (q : Nat) :
    group64 data q < 2 ^ 64 := by
  have h := fun k => getPad_lt_of_mem_lt hb k
  unfold group64
  rw [to_u64_eq]
  have h0 := h (8 * q)
  have h1 := h (8 * q + 1)
  have h2 := h (8 * q + 2)
  have h3 := h (8 * q + 3)
  have h4 := h (8 * q + 4)
  have h5 := h (8 * q + 5)
  have h6 := h (8 * q + 6)
  have h7 := h (8 * q + 7)
  omega

lemma group64_zero {data : List Nat} {q : Nat} (h : data.length ≤ 8 * q) :
    group64 data q = 0 := by
  unfold group64
  rw [getPad_eq_zero_of_le (by omega), getPad_eq_zero_of_le (by omega),
    getPad_eq_zero_of_le (by omega), getPad_eq_zero_of_le (by omega),
    getPad_eq_zero_of_le (by omega), getPad_eq_zero_of_le (by omega),
    getPad_eq_zero_of_le (by omega), getPad_eq_zero_of_le (by omega)]
  rfl

lemma group64_testBit_stream {data : List Nat} (hb : ∀ b ∈ data, b < 256) (q t : Nat)
    (ht : t < 64) :
    (group64 data q).testBit t = streamBit data (64 * q + (63 - t)) := by
  have h := fun k => getPad_lt_of_mem_lt hb k
  have key : ∀ a a' b b' : Nat, a = a' → b = b' →
      (getPad data a).testBit b = (getPad data a').testBit b' := by
    intro a a' b b' ha hb2
    rw [ha, hb2]
  unfold group64
  rw [to_u64_testBit (h _) (h _) (h _) (h _) (h _) (h _) (h _) (h _)]
  unfold streamBit
  have hdiv : (64 * q + (63 - t)) / 8 = 8 * q + (7 - t / 8) := by omega
  have hmod : 7 - (64 * q + (63 - t)) % 8 = t % 8 := by omega
  rw [hdiv, hmod]
  split_ifs <;> first
    | (exfalso; omega)
    | (apply key <;> omega)

lemma streamBit_take (data : List Nat) (m n : Nat) :
    streamBit (data.take m) n = (decide (n < 8 * m) && streamBit data n) := by
  unfold streamBit
  rw [getPad_take]
  rcases Nat.lt_or_ge (n / 8) m with h | h
  · have h2 : n < 8 * m := by omega
    simp [h, h2]
  · have h2 : ¬ n < 8 * m := by omega
    simp [Nat.not_lt.2 h, h2]

lemma zip_adjacent (l : List (Nat × Nat)) :
    List.zipWith (fun d r => d ||| r) ((l.drop 1).map Prod.fst) (l.map Prod.snd) =
      (List.range (l.length - 1)).map
        (fun q => (l.getD (q + 1) (0, 0)).1 ||| (l.getD q (0, 0)).2) := by
  induction l with
  | nil => rfl
  | cons x t ih =>
    cases t with
    | nil => rfl
    | cons y t2 =>
      have hr : (x :: y :: t2 : List (Nat × Nat)).length - 1 = t2.length + 1 := by simp
      rw [hr, List.range_succ_eq_map]
      simp only [List.drop_succ_cons, List.drop_zero] at ih ⊢
      simp only [List.map_cons, List.zipWith_cons_cons, List.map_map]
      have ht : (y :: t2 : List (Nat × Nat)).length - 1 = t2.length := by simp
      rw [ht] at ih
      simp only [List.map_cons] at ih
      rw [ih]
      congr 1

lemma shifted_u64s_eq (data : List Nat) (s : Nat) :
    List.zipWith (fun d r => d ||| r)
      (((((List.range ((data.length + 7) / 8)).map (fun j => group64 data j)).map
        (fun u => (u >>> (64 - s), (u <<< s) % 2 ^ 64)) ++ [(0, 0)]).drop 1).map Prod.fst)
      ((((List.range ((data.length + 7) / 8)).map (fun j => group64 data j)).map
        (fun u => (u >>> (64 - s), (u <<< s) % 2 ^ 64)) ++ [(0, 0)]).map Prod.snd) =
      (List.range ((data.length + 7) / 8)).map (fun q => carry64 data s q) := by
  rw [zip_adjacent]
  have hget : ∀ q, q ≤ (data.length + 7) / 8 →
      ((((List.range ((data.length + 7) / 8)).map (fun j => group64 data j)).map
      (fun u => (u >>> (64 - s), (u <<< s) % 2 ^ 64)) ++ [(0, 0)]).getD q (0, 0)) =
      (group64 data q >>> (64 - s), (group64 data q <<< s) % 2 ^ 64) := by
    intro q hq
    rw [List.getD_eq_getElem?_getD, List.getElem?_append]
    rcases Nat.lt_or_ge q ((data.length + 7) / 8) with h | h
    · have h2 : q < (((List.range ((data.length + 7) / 8)).map (fun j => group64 data j)).map
          (fun u => (u >>> (64 - s), (u <<< s) % 2 ^ 64))).length := by simp [h]
      rw [if_pos h2]
      simp [List.getElem?_range h]
    · have heq : q = (data.length + 7) / 8 := by omega
      have h2 : ¬ q < (((List.range ((data.length + 7) / 8)).map (fun j => group64 data j)).map
          (fun u => (u >>> (64 - s), (u <<< s) % 2 ^ 64))).length := by simp; omega
      rw [if_neg h2]
      have h3 : q - (((List.range ((data.length + 7) / 8)).map (fun j => group64 data j)).map
          (fun u => (u >>> (64 - s), (u <<< s) % 2 ^ 64))).length = 0 := by simp; omega
      rw [h3]
      have hz : group64 data q = 0 := group64_zero (by omega)
      simp [hz]
  have hlen : ((((List.range ((data.length + 7) / 8)).map (fun j => group64 data j)).map
      (fun u => (u >>> (64 - s), (u <<< s) % 2 ^ 64)) ++ [(0, 0)]).length) - 1 =
      (data.length + 7) / 8 := by simp
  rw [hlen]
  apply List.map_congr_left
  intro q hql
  have hq : q < (data.length + 7) / 8 := List.mem_range.mp hql
  rw [hget q (by omega), hget (q + 1) (by omega)]
  rfl

lemma ok_bind {α β : Type} (a : α) (f : α → Except Err β) :
    (Except.ok a : Except Err α) >>= f = f a := rfl

lemma cross_byte_left_shift_eq {data : List Nat} (hb : ∀ b ∈ data, b < 256) {s : Nat}
    (hs : s ≤ 64) :
    cross_byte_left_shift data s = .ok ((List.range data.length).map (carryByte data s)) := by
  unfold cross_byte_left_shift
  have hmap : mapExcept (fun u => left_shift_64 u s)
      ((List.range ((data.length + 7) / 8)).map (fun j => group64 data j)) =
      .ok (((List.range ((data.length + 7) / 8)).map (fun j => group64 data j)).map
        (fun u => (u >>> (64 - s), (u <<< s) % 2 ^ 64))) := by
    apply mapExcept_ok
    intro a ha
    rcases List.mem_map.1 ha with ⟨j, _, rfl⟩
    exact left_shift_64_spec (group64_lt hb j) hs
  simp only [hmap, ok_bind]
  congr 1
  rw [shifted_u64s_eq data s]
  apply ext_getPad
  · rw [List.length_take, length_flatten_map8]
    simp
    omega
  · intro i hi
    have hilen : i < data.length := by
      rw [List.length_take, length_flatten_map8] at hi
      simp at hi
      omega
    rw [getPad_take, if_pos hilen, getPad_flatten_map8, getPad_map_range, getPad_map_range]
    have h1 : i < 8 * ((List.range ((data.length + 7) / 8)).map
        (fun q => carry64 data s q)).length := by
      simp
      omega
    have h2 : i / 8 < (data.length + 7) / 8 := by omega
    rw [if_pos h1, if_pos h2, if_pos hilen]
    rfl

lemma carryByte_lt (data : List Nat) (s i : Nat) : carryByte data s i < 256 := by
  unfold carryByte
  have h : carry64 data s (i / 8) &&& 0xFF <<< (8 * (8 - 1 - i % 8)) ≤
      0xFF <<< (8 * (8 - 1 - i % 8)) := Nat.and_le_right
  have h2 : ∀ x k : Nat, (x &&& (0xFF <<< k)) >>> k = (x >>> k) &&& 0xFF := by
    intro x k
    apply Nat.eq_of_testBit_eq
    intro t
    have h255 : (0xFF : Nat) = 2 ^ 8 - 1 := by norm_num
    simp only [Nat.testBit_shiftRight, Nat.testBit_and, Nat.testBit_shiftLeft, h255,
      Nat.testBit_two_pow_sub_one]
    have hk : k ≤ k + t := Nat.le_add_right _ _
    have hkt : k + t - k = t := by omega
    simp [hk, hkt]
  rw [h2]
  have := Nat.and_le_right (n := carry64 data s (i / 8) >>> (8 * (8 - 1 - i % 8))) (m := 0xFF)
  omega

lemma carryByte_testBit {data : List Nat} (hb : ∀ b ∈ data, b < 256) {s : Nat} (hs : s < 8)
    (i t : Nat) :
    (carryByte data s i).testBit t = (decide (t < 8) && streamBit data (8 * i + s + (7 - t))) := by
  rcases Nat.lt_or_ge t 8 with ht | ht
  swap
  · have hlt : carryByte data s i < 2 ^ t := by
      have h1 := carryByte_lt data s i
      calc carryByte data s i < 256 := h1
        _ = 2 ^ 8 := by norm_num
        _ ≤ 2 ^ t := Nat.pow_le_pow_right (by norm_num) ht
    have h2 : ¬ t < 8 := by omega
    simp [Nat.testBit_lt_two_pow hlt, h2]
  · unfold carryByte
    have hsh : 8 * (8 - 1 - i % 8) ≤ 56 := by omega
    have h255 : (0xFF : Nat) = 2 ^ 8 - 1 := by norm_num
    simp only [Nat.testBit_shiftRight, Nat.testBit_and, Nat.testBit_shiftLeft, h255,
      Nat.testBit_two_pow_sub_one]
    have hk : 8 * (8 - 1 - i % 8) ≤ 8 * (8 - 1 - i % 8) + t := Nat.le_add_right _ _
    have hkt : 8 * (8 - 1 - i % 8) + t - 8 * (8 - 1 - i % 8) = t := by omega
    rw [hkt]
    unfold carry64
    simp only [Nat.testBit_or, Nat.testBit_shiftRight, Nat.testBit_mod_two_pow,
      Nat.testBit_shiftLeft]
    rcases Nat.lt_or_ge (8 * (8 - 1 - i % 8) + t) s with hc | hc
    · -- the bit comes from the following group's discarded bits
      have h64 : 64 - s + (8 * (8 - 1 - i % 8) + t) < 64 := by omega
      rw [group64_testBit_stream hb _ _ h64]
      have hpos : 64 * (i / 8 + 1) + (63 - (64 - s + (8 * (8 - 1 - i % 8) + t))) =
          8 * i + s + (7 - t) := by omega
      rw [hpos]
      have hR : ¬ s ≤ 8 * (8 - 1 - i % 8) + t := by omega
      simp [hR, ht, hk]
    · -- the bit comes from this group's retained bits
      have h64 : 64 ≤ 64 - s + (8 * (8 - 1 - i % 8) + t) := by omega
      have hD : (group64 data (i / 8 + 1)).testBit (64 - s + (8 * (8 - 1 - i % 8) + t)) =
          false := by
        apply Nat.testBit_lt_two_pow
        exact lt_of_lt_of_le (group64_lt hb _) (Nat.pow_le_pow_right (by norm_num) h64)
      have hst : 8 * (8 - 1 - i % 8) + t < 64 := by omega
      rw [hD]
      have h2 : (group64 data (i / 8)).testBit (8 * (8 - 1 - i % 8) + t - s) =
          streamBit data (8 * i + s + (7 - t)) := by
        rw [group64_testBit_stream hb _ _ (by omega)]
        congr 1
        omega
      simp [hst, hc, h2, ht, hk]

lemma testBit_ite_pow_add (c : Prop) [Decidable c] (k rest t : Nat) (hr : rest < 2 ^ k) :
    ((if c then 2 ^ k else 0) + rest).testBit t =
      if t = k then decide c else rest.testBit t := by
  by_cases hc : c
  · rw [if_pos hc]
    have h : 2 ^ k + rest = 2 ^ k * 1 + rest := by ring
    rw [h, Nat.testBit_mul_pow_two_add 1 hr t]
    rcases lt_trichotomy t k with h1 | h1 | h1
    · rw [if_pos h1, if_neg (Nat.ne_of_lt h1)]
    · subst h1
      simp [hc]
    · have h2 : rest.testBit t = false :=
        Nat.testBit_lt_two_pow
          (lt_of_lt_of_le hr (Nat.pow_le_pow_right (by norm_num) (le_of_lt h1)))
      have h3 : Nat.testBit 1 (t - k) = false := by
        apply Nat.testBit_lt_two_pow
        have : 1 ≤ t - k := by omega
        calc (1 : Nat) < 2 ^ 1 := by norm_num
          _ ≤ 2 ^ (t - k) := Nat.pow_le_pow_right (by norm_num) this
      rw [if_neg (by omega : ¬ t < k), if_neg (by omega : t ≠ k), h2, h3]
  · rw [if_neg hc, Nat.zero_add]
    rcases eq_or_ne t k with rfl | hne
    · simp [hc, Nat.testBit_lt_two_pow hr]
    · rw [if_neg hne]

lemma bits8_testBit (g : Nat → Prop) [DecidablePred g] (t : Nat) :
    (((List.range 8).map (fun p => if g p then 1 <<< (7 - p) else 0)).sum).testBit t =
      (decide (t < 8) && decide (g (7 - t))) := by
  have hrange : List.range 8 = [0, 1, 2, 3, 4, 5, 6, 7] := rfl
  rw [hrange]
  simp only [List.map_cons, List.map_nil, List.sum_cons, List.sum_nil, Nat.add_zero]
  have e0 : (1 : Nat) <<< (7 - 0) = 2 ^ 7 := by decide
  have e1 : (1 : Nat) <<< (7 - 1) = 2 ^ 6 := by decide
  have e2 : (1 : Nat) <<< (7 - 2) = 2 ^ 5 := by decide
  have e3 : (1 : Nat) <<< (7 - 3) = 2 ^ 4 := by decide
  have e4 : (1 : Nat) <<< (7 - 4) = 2 ^ 3 := by decide
  have e5 : (1 : Nat) <<< (7 - 5) = 2 ^ 2 := by decide
  have e6 : (1 : Nat) <<< (7 - 6) = 2 ^ 1 := by decide
  have e7 : (1 : Nat) <<< (7 - 7) = 2 ^ 0 := by decide
  rw [e0, e1, e2, e3, e4, e5, e6, e7]
  have hle : ∀ (c : Prop) (_ : Decidable c) (k : Nat), (if c then 2 ^ k else 0 : Nat) ≤ 2 ^ k := by
    intro c i k
    split <;> simp
  have l1 := hle (g 1) inferInstance 6
  have l2 := hle (g 2) inferInstance 5
  have l3 := hle (g 3) inferInstance 4
  have l4 := hle (g 4) inferInstance 3
  have l5 := hle (g 5) inferInstance 2
  have l6 := hle (g 6) inferInstance 1
  have l7 := hle (g 7) inferInstance 0
  have b7 : (0 : Nat) < 2 ^ 0 := by norm_num
  rw [show (if g 7 then 2 ^ 0 else 0 : Nat) =
    (if g 7 then 2 ^ 0 else 0 : Nat) + 0 from by omega]
  rw [testBit_ite_pow_add (g 0) 7 _ t (by omega)]
  rw [testBit_ite_pow_add (g 1) 6 _ t (by omega)]
  rw [testBit_ite_pow_add (g 2) 5 _ t (by omega)]
  rw [testBit_ite_pow_add (g 3) 4 _ t (by omega)]
  rw [testBit_ite_pow_add (g 4) 3 _ t (by omega)]
  rw [testBit_ite_pow_add (g 5) 2 _ t (by omega)]
  rw [testBit_ite_pow_add (g 6) 1 _ t (by omega)]
  rw [testBit_ite_pow_add (g 7) 0 0 t b7]
  rcases Nat.lt_or_ge t 8 with ht | ht
  · interval_cases t <;> simp
  · rw [if_neg (by omega : ¬ t = 7), if_neg (by omega : ¬ t = 6),
      if_neg (by omega : ¬ t = 5), if_neg (by omega : ¬ t = 4),
      if_neg (by omega : ¬ t = 3), if_neg (by omega : ¬ t = 2),
      if_neg (by omega : ¬ t = 1), if_neg (by omega : ¬ t = 0)]
    simp [Nat.not_lt.2 ht]

lemma refByte_testBit (data : List Nat) (offset width j t : Nat) :
    (refByte data offset width j).testBit t =
      (decide (t < 8) && decide (8 * j + (7 - t) < width ∧
        streamBit data (offset + (8 * j + (7 - t))))) := by
  unfold refByte
  exact bits8_testBit (fun p => 8 * j + p < width ∧ streamBit data (offset + (8 * j + p))) t

lemma refByte_lt (data : List Nat) (offset width j : Nat) : refByte data offset width j < 256 := by
  apply Nat.lt_pow_two_of_testBit (n := 8)
  intro i hi
  rw [refByte_testBit]
  simp [Nat.not_lt.2 hi]

lemma mask_testBit (lb t : Nat) (h : lb < 8) :
    ((0xFF : Nat) ^^^ (0xFF >>> (lb + 1))).testBit t = decide (7 - lb ≤ t ∧ t < 8) := by
  rcases Nat.lt_or_ge t 8 with ht | ht
  · interval_cases lb <;> interval_cases t <;> decide
  · have hv : (0xFF : Nat) ^^^ (0xFF >>> (lb + 1)) < 2 ^ t := by
      have : (0xFF : Nat) ^^^ (0xFF >>> (lb + 1)) < 256 := by interval_cases lb <;> decide
      calc (0xFF : Nat) ^^^ (0xFF >>> (lb + 1)) < 256 := this
        _ = 2 ^ 8 := by norm_num
        _ ≤ 2 ^ t := Nat.pow_le_pow_right (by norm_num) ht
    rw [Nat.testBit_lt_two_pow hv]
    simp
    omega

lemma carryByte_slice_eq_refByte {data : List Nat} {offset width j : Nat}
    (hoff : offset ≤ 7) (hw1 : 1 ≤ width)
    (hfit : offset + width ≤ 8 * data.length) (hb : ∀ b ∈ data, b < 256)
    (hj : j < (width - 1) / 8) :
    carryByte (data.take ((offset + width - 1) / 8 + 1)) offset j =
      refByte data offset width j := by
  have hbs : ∀ b ∈ data.take ((offset + width - 1) / 8 + 1), b < 256 :=
    fun b hbm => hb b (List.mem_of_mem_take hbm)
  apply Nat.eq_of_testBit_eq
  intro t
  rw [carryByte_testBit hbs (by omega) j t, refByte_testBit]
  rcases Nat.lt_or_ge t 8 with ht | ht
  swap
  · simp [Nat.not_lt.2 ht]
  · rw [streamBit_take]
    have harg : 8 * j + offset + (7 - t) = offset + (8 * j + (7 - t)) := by omega
    have hin : 8 * j + (7 - t) < width := by omega
    have hsl : offset + (8 * j + (7 - t)) < 8 * ((offset + width - 1) / 8 + 1) := by omega
    rw [harg]
    by_cases hsb : streamBit data (offset + (8 * j + (7 - t)))
    · simp [hsb, ht, hin, hsl]
    · simp [hsb, ht, hin, hsl]

lemma carryByte_slice_mask_eq_refByte {data : List Nat} {offset width : Nat}
    (hoff : offset ≤ 7) (hw1 : 1 ≤ width)
    (hfit : offset + width ≤ 8 * data.length) (hb : ∀ b ∈ data, b < 256) :
    (carryByte (data.take ((offset + width - 1) / 8 + 1)) offset ((width - 1) / 8) &&&
      (0xFF ^^^ (0xFF >>> ((width - 1) % 8 + 1)))) =
      refByte data offset width ((width - 1) / 8) := by
  have hbs : ∀ b ∈ data.take ((offset + width - 1) / 8 + 1), b < 256 :=
    fun b hbm => hb b (List.mem_of_mem_take hbm)
  apply Nat.eq_of_testBit_eq
  intro t
  rw [Nat.testBit_and, carryByte_testBit hbs (by omega) _ t, refByte_testBit,
    mask_testBit _ t (by omega)]
  rcases Nat.lt_or_ge t 8 with ht | ht
  swap
  · simp [Nat.not_lt.2 ht]
  · rw [streamBit_take]
    have harg : 8 * ((width - 1) / 8) + offset + (7 - t) =
        offset + (8 * ((width - 1) / 8) + (7 - t)) := by omega
    rw [harg]
    by_cases hch : 7 - (width - 1) % 8 ≤ t
    · have hin : 8 * ((width - 1) / 8) + (7 - t) < width := by omega
      have hsl : offset + (8 * ((width - 1) / 8) + (7 - t)) <
          8 * ((offset + width - 1) / 8 + 1) := by omega
      by_cases hsb : streamBit data (offset + (8 * ((width - 1) / 8) + (7 - t)))
      · simp [hsb, ht, hin, hsl, hch]
      · simp [hsb, ht, hin, hsl, hch]
    · have hin : ¬ (8 * ((width - 1) / 8) + (7 - t) < width) := by omega
      simp [ht, hin, hch]

/-- **C1**: for every byte buffer, every `offset ∈ [0,7]` and `width ∈ [1,64]`
with `offset + width` within the buffer, the optimised 64-bit-group
implementation `extract` returns exactly the bytes of the naive per-bit
reference implementation: the `width`-bit subrange starting at `offset`,
left-shifted so the bit at `offset` becomes the most significant bit of the
first output byte, the final byte zero-padded on its low-order bits. -/
theorem extract_eq_reference {data : List Nat} {offset width : Nat}
    (hoff : offset ≤ 7) (hw1 : 1 ≤ width) (hw64 : width ≤ 64)
    (hfit : offset + width ≤ 8 * data.length) (hb : ∀ b ∈ data, b < 256) :
    extract data offset width = .ok (extract_reference data offset width) := by
  have hbs : ∀ b ∈ data.take ((offset + width - 1) / 8 + 1), b < 256 :=
    fun b hbm => hb b (List.mem_of_mem_take hbm)
  unfold extract
  simp only [to_bitwise_addr]
  rw [show offset / 8 = 0 from by omega]
  have hif : (offset + width - 1) / 8 < data.length := by omega
  rw [if_pos hif]
  rw [List.drop_zero]
  rw [show (offset + width - 1) / 8 + 1 - 0 = (offset + width - 1) / 8 + 1 from by omega]
  rw [show offset % 8 = offset from by omega]
  rw [cross_byte_left_shift_eq hbs (by omega)]
  simp only [ok_bind]
  congr 1
  have hslicelen : (data.take ((offset + width - 1) / 8 + 1)).length =
      (offset + width - 1) / 8 + 1 := by
    simp
    omega
  rw [hslicelen]
  have hlb : (width - 1) / 8 ≤ (offset + width - 1) / 8 := by omega
  apply ext_getPad
  · simp only [List.length_take, List.length_set, List.length_map, List.length_range]
    unfold extract_reference
    simp only [List.length_map, List.length_range]
    omega
  · intro j hjlen
    have hLlen : ((List.map (carryByte (List.take ((offset + width - 1) / 8 + 1) data) offset)
        (List.range ((offset + width - 1) / 8 + 1)))).length =
        (offset + width - 1) / 8 + 1 := by
      simp
    have hj : j < (width - 1) / 8 + 1 := by
      rw [List.length_take, List.length_set, hLlen] at hjlen
      omega
    rw [getPad_take, if_pos hj]
    rw [getPad_set, hLlen]
    unfold extract_reference
    rw [getPad_map_range, getPad_map_range]
    rcases eq_or_ne j ((width - 1) / 8) with rfl | hne
    · rw [if_pos (And.intro rfl
        (show (width - 1) / 8 < (offset + width - 1) / 8 + 1 by omega)),
        if_pos (show (width - 1) / 8 < (offset + width - 1) / 8 + 1 by omega),
        getPad_map_range, if_pos (show (width - 1) / 8 < (width + 7) / 8 by omega)]
      exact carryByte_slice_mask_eq_refByte hoff hw1 hfit hb
    · rw [if_neg (fun h => hne h.1),
        if_pos (show j < (offset + width - 1) / 8 + 1 by omega),
        getPad_map_range, if_pos (show j < (width + 7) / 8 by omega)]
      exact carryByte_slice_eq_refByte hoff hw1 hfit hb (by omega)

/-- **C7**: for every buffer, offset in `[0,7]` and width at least 1, `extract`
raises the input-size error exactly when `offset + width` exceeds the number of
bits in the buffer, and returns normally (no retry, no other error) otherwise. -/
theorem extract_inputSize_iff {data : List Nat} {offset width : Nat}
    (hoff : offset ≤ 7) (hw : 1 ≤ width) (hb : ∀ b ∈ data, b < 256) :
    (extract data offset width = .error .hexInputSize ↔ 8 * data.length < offset + width) ∧
    (offset + width ≤ 8 * data.length → ∃ l, extract data offset width = .ok l) := by
  have hok : offset + width ≤ 8 * data.length → ∃ l, extract data offset width = .ok l := by
    intro hfit
    apply Exists.intro
    unfold extract
    simp only [to_bitwise_addr]
    rw [show offset / 8 = 0 from by omega]
    rw [if_pos (show (offset + width - 1) / 8 < data.length by omega)]
    rw [List.drop_zero,
      show (offset + width - 1) / 8 + 1 - 0 = (offset + width - 1) / 8 + 1 from by omega,
      show offset % 8 = offset from by omega]
    rw [cross_byte_left_shift_eq (fun b hbm => hb b (List.mem_of_mem_take hbm)) (by omega)]
    simp only [ok_bind]
    rfl
  constructor
  · constructor
    · intro herr
      by_contra hno
      rcases hok (by omega) with ⟨l, hl⟩
      rw [hl] at herr
      exact absurd herr (by simp)
    · intro hgt
      unfold extract
      simp only [to_bitwise_addr]
      rw [if_neg (show ¬ (offset + width - 1) / 8 < data.length by omega)]
  · exact hok

/-- Witness for C7 at concrete inputs: a one-byte buffer is too small for
8 bits at offset 3 and raises the input-size error; a two-byte buffer
suffices and `extract` returns normally. -/
theorem extract_inputSize_iff_witness :
    (extract [0xCA] 3 8 = .error .hexInputSize) ∧
    (∃ l, extract [0xCA, 0xFE] 3 8 = .ok l) := by
  constructor
  · exact (extract_inputSize_iff (by norm_num) (by norm_num)
      (by intro b hbm; simp at hbm; omega)).1.2 (by norm_num)
  · exact (extract_inputSize_iff (by norm_num) (by norm_num)
      (by intro b hbm; simp at hbm; rcases hbm with rfl | rfl <;> norm_num)).2 (by norm_num)

lemma bit_at_eq (data : List Nat) (addr : Nat) :
    bit_at data addr = if streamBit data addr then 1 else 0 := by
  unfold bit_at streamBit to_bitwise_addr
  simp only
  have h8 : 8 - addr % 8 - 1 = 7 - addr % 8 := by omega
  rw [h8, Nat.and_two_pow, Nat.shiftRight_eq_div_pow]
  rcases hB : (getPad data (addr / 8)).testBit (7 - addr % 8) with _ | _
  · simp
  · simp [Nat.one_mul, Nat.div_self (Nat.two_pow_pos (7 - addr % 8))]

lemma sum_desc_two_pow (w : Nat) :
    ((List.range w).map (fun i => 2 ^ (w - 1 - i))).sum = 2 ^ w - 1 := by
  induction w with
  | zero => simp
  | succ n ih =>
    rw [List.range_succ_eq_map, List.map_cons, List.map_map, List.sum_cons]
    have hf : ((List.range n).map ((fun i => 2 ^ (n + 1 - 1 - i)) ∘ Nat.succ)) =
        (List.range n).map (fun i => 2 ^ (n - 1 - i)) := by
      apply List.map_congr_left
      intro i _
      simp only [Function.comp]
      congr 1
      omega
    rw [hf, ih, show n + 1 - 1 - 0 = n from by omega]
    have h1 : (1 : Nat) ≤ 2 ^ n := Nat.one_le_two_pow
    have h2 : 2 ^ (n + 1) = 2 ^ n * 2 := by rw [Nat.pow_succ]
    omega

/-- **C4**: an integer field's decoded value is the unsigned big-endian
interpretation of the `width` bits starting at `offset` (the sum of
`2^(width-1-i)` over each set bit `i`), and in particular the all-ones bit
pattern of width `w` decodes to `2^w - 1`. -/
theorem integer_decode_bigEndian {data : List Nat} {offset width : Nat}
    (hw2 : 2 ≤ width) (hw64 : width ≤ 64) (hfit : offset + width ≤ 8 * data.length) :
    decode_integer_value data offset width = bigEndianValue data offset width ∧
    ((∀ i, i < width → streamBit data (offset + i)) →
      decode_integer_value data offset width = 2 ^ width - 1) := by
  have heq : decode_integer_value data offset width = bigEndianValue data offset width := by
    unfold decode_integer_value bigEndianValue
    congr 1
    apply List.map_congr_left
    intro i _
    rw [bit_at_eq]
    by_cases h : streamBit data (offset + i)
    · simp only [h, if_pos, if_true]
      congr 1
      omega
    · simp [h]
  refine ⟨heq, fun hall => ?_⟩
  rw [heq]
  unfold bigEndianValue
  rw [show ((List.range width).map (fun i =>
      if streamBit data (offset + i) then 2 ^ (width - 1 - i) else 0)) =
      (List.range width).map (fun i => 2 ^ (width - 1 - i)) from
    List.map_congr_left (fun i hi => by simp [hall i (List.mem_range.mp hi)])]
  exact sum_desc_two_pow width

/-- Witness for C4: decoding the all-ones byte at width 3 gives
`2^3 - 1 = 7`, matching the big-endian interpretation. -/
theorem integer_decode_bigEndian_witness :
    decode_integer_value [0xFF] 2 3 = bigEndianValue [0xFF] 2 3 ∧
    decode_integer_value [0xFF] 2 3 = 2 ^ 3 - 1 := by
  have h := @integer_decode_bigEndian [0xFF] 2 3
    (by norm_num) (by norm_num) (by norm_num)
  exact ⟨h.1, h.2 (by decide)⟩

lemma bind_ok_inv {α β : Type} {e : Except Err α} {f : α → Except Err β} {b : β}
    (h : (e >>= f) = .ok b) : ∃ a, e = .ok a ∧ f a = .ok b := by
  cases e with
  | error err => exact absurd h (by simp [Bind.bind, Except.bind])
  | ok a => exact ⟨a, rfl, h⟩

/-- **C5**: resolving a switch fails with a decoding error when no context is
available, when the target identifier is absent from the context, or when the
target field's decoded value is not a key of the branch map; otherwise it
recursively decodes the selected branch at the current offset and context and
returns that decoded field directly, with no switch wrapper of its own. -/
theorem switch_resolution (fuel : Nat) (target : String)
    (branches : List (AbsValue × AbsSpec)) (data : List Nat) (offset : Nat)
    (hv : branches_valid branches = true) :
    (make (fuel + 1) (.switch target branches) data offset none = .error .absDecoding) ∧
    (∀ c : Ctx, ctxFind c target = none →
      make (fuel + 1) (.switch target branches) data offset (some c) = .error .absDecoding) ∧
    (∀ c f, ctxFind c target = some f → branchLookup branches f.value = none →
      make (fuel + 1) (.switch target branches) data offset (some c) = .error .absDecoding) ∧
    (∀ c f bspec, ctxFind c target = some f → branchLookup branches f.value = some bspec →
      make (fuel + 1) (.switch target branches) data offset (some c) =
        make fuel bspec data offset (some c)) := by
  refine ⟨?_, ?_, ?_, ?_⟩
  · rw [make]
    simp only [spec_type, hv, if_pos]
    rfl
  · intro c hc
    rw [make]
    simp only [spec_type, hv, if_pos, ok_bind, hc]
  · intro c f hc hbr
    rw [make]
    simp only [spec_type, hv, if_pos, ok_bind, hc, hbr]
  · intro c f bspec hc hbr
    rw [make]
    simp only [spec_type, hv, if_pos, ok_bind, hc, hbr]

/-- Witness for C5 at a concrete switch: all four behaviours observed on a
one-branch switch keyed by integer value 0. -/
theorem switch_resolution_witness :
    (make 6 (.switch "t" [(.vint 0, .prim "a" 8 false)]) [0x41] 0 none =
      .error .absDecoding) ∧
    (make 6 (.switch "t" [(.vint 0, .prim "a" 8 false)]) [0x41] 0 (some []) =
      .error .absDecoding) ∧
    (make 6 (.switch "t" [(.vint 0, .prim "a" 8 false)]) [0x41] 0
      (some [("t", .prim "t" 2 (.vint 5) true [0x40])]) = .error .absDecoding) ∧
    (make 6 (.switch "t" [(.vint 0, .prim "a" 8 false)]) [0x41] 0
      (some [("t", .prim "t" 2 (.vint 0) true [0x00])]) =
      make 5 (.prim "a" 8 false) [0x41] 0
        (some [("t", .prim "t" 2 (.vint 0) true [0x00])])) := by
  have h := switch_resolution 5 "t" [(.vint 0, .prim "a" 8 false)] [0x41] 0 (by decide)
  refine ⟨h.1, h.2.1 [] (by rfl), ?_, ?_⟩
  · exact h.2.2.1 [("t", .prim "t" 2 (.vint 5) true [0x40])]
      (.prim "t" 2 (.vint 5) true [0x40]) (by rfl) (by rfl)
  · exact h.2.2.2 [("t", .prim "t" 2 (.vint 0) true [0x00])]
      (.prim "t" 2 (.vint 0) true [0x00]) (.prim "a" 8 false) (by rfl) (by rfl)

lemma structChildren_sum (fuel : Nat) :
    ∀ (specs : List AbsSpec) (data : List Nat) (offset : Nat) (ctx : Ctx)
      (fields : List AbsField) (endOff : Nat) (ctxF : Ctx),
      structChildren fuel specs data offset ctx = .ok (fields, endOff, ctxF) →
      endOff = offset + (fields.map AbsField.bitWidth).sum := by
  induction fuel with
  | zero =>
    intro specs data offset ctx fields endOff ctxF h
    rw [structChildren] at h
    exact absurd h (by simp)
  | succ fuel ih =>
    intro specs data offset ctx fields endOff ctxF h
    cases specs with
    | nil =>
      rw [structChildren] at h
      simp only [Except.ok.injEq, Prod.mk.injEq] at h
      obtain ⟨rfl, rfl, rfl⟩ := h
      simp
    | cons s rest =>
      rw [structChildren] at h
      obtain ⟨⟨child, octx1⟩, hm, h⟩ := bind_ok_inv h
      obtain ⟨ctx2, hreg, h⟩ := bind_ok_inv h
      obtain ⟨⟨fields2, endOff2, ctx3⟩, hrest, h⟩ := bind_ok_inv h
      simp only [Except.ok.injEq, Prod.mk.injEq] at h
      obtain ⟨rfl, rfl, rfl⟩ := h
      have hsum := ih rest data (offset + child.bitWidth) ctx2 fields2 endOff2 ctx3 hrest
      simp only [List.map_cons, List.sum_cons]
      omega

/-- **C8**: a successfully decoded struct's bit width is the sum of its
decoded children's bit widths — the running cursor advances by each child's
consumed width in order — and a struct with an empty child list has width 0. -/
theorem struct_width_sum {fuel : Nat} {sid : String} {children : List AbsSpec}
    {data : List Nat} {offset : Nat} {ctx : Option Ctx} {f : AbsField} {octx : Option Ctx}
    (h : make (fuel + 1) (.struct sid children) data offset ctx = .ok (f, octx)) :
    ∃ fields endOff ctxF,
      structChildren fuel children data offset (ctx.getD []) = .ok (fields, endOff, ctxF) ∧
      f.bitWidth = (fields.map AbsField.bitWidth).sum ∧
      (children = [] → f.bitWidth = 0) := by
  rw [make] at h
  obtain ⟨t, hty, h⟩ := bind_ok_inv h
  by_cases hoff : offset ≥ 8
  · rw [if_pos hoff] at h
    exact absurd h (by simp)
  · rw [if_neg hoff] at h
    obtain ⟨⟨fields, endOff, ctxF⟩, hsc, h⟩ := bind_ok_inv h
    have hsum := structChildren_sum fuel children data offset (ctx.getD []) fields endOff
      ctxF hsc
    dsimp only at h
    have hmain : f.bitWidth = endOff - offset := by
      by_cases hw : endOff - offset > 0
      · rw [if_pos hw] at h
        obtain ⟨raw, hraw, h⟩ := bind_ok_inv h
        simp only [Except.ok.injEq, Prod.mk.injEq] at h
        obtain ⟨hf, _⟩ := h
        rw [← hf]
        rfl
      · rw [if_neg hw] at h
        obtain ⟨raw, hraw, h⟩ := bind_ok_inv h
        simp only [Except.ok.injEq, Prod.mk.injEq] at h
        obtain ⟨hf, _⟩ := h
        rw [← hf]
        rfl
    refine ⟨fields, endOff, ctxF, hsc, by omega, ?_⟩
    intro hnil
    subst hnil
    cases fuel with
    | zero =>
      rw [structChildren] at hsc
      exact absurd hsc (by simp)
    | succ fuel2 =>
      rw [structChildren] at hsc
      simp only [Except.ok.injEq, Prod.mk.injEq] at hsc
      obtain ⟨rfl, rfl, rfl⟩ := hsc
      omega

/-- Witness for C8: a struct of a 3-bit and a 13-bit field has width 16, the
sum of its children's widths; the empty struct has width 0. -/
theorem struct_width_sum_witness :
    (∃ fields endOff ctxF,
      structChildren 9 [.prim "a" 3 false, .prim "b" 13 false] [0xCA, 0xFE] 0 [] =
        .ok (fields, endOff, ctxF) ∧
      (16 : Nat) = (fields.map AbsField.bitWidth).sum ∧
      ([.prim "a" 3 false, .prim "b" 13 false] = ([] : List AbsSpec) → (16 : Nat) = 0)) := by
  have h : make 10 (.struct "s" [.prim "a" 3 false, .prim "b" 13 false]) [0xCA, 0xFE] 0 none =
      .ok (.struct "s" 16
        [("a", .prim "a" 3 (.vint 6) false [0xC0]), ("b", .prim "b" 13 (.vint 2814) false
          [0x57, 0xF0])] [0xCA, 0xFE], none) := by rfl
  have h2 := struct_width_sum h
  simpa [AbsField.bitWidth] using h2

lemma error_bind {α β : Type} (e : Err) (f : α → Except Err β) :
    (Except.error e : Except Err α) >>= f = .error e := rfl

lemma extract_ok {data : List Nat} {offset width : Nat}
    (hoff : offset ≤ 7) (hw : 1 ≤ width) (hfit : offset + width ≤ 8 * data.length)
    (hb : ∀ b ∈ data, b < 256) : ∃ l, extract data offset width = .ok l := by
  apply Exists.intro
  unfold extract
  simp only [to_bitwise_addr]
  rw [show offset / 8 = 0 from by omega]
  rw [if_pos (show (offset + width - 1) / 8 < data.length by omega)]
  rw [List.drop_zero,
    show (offset + width - 1) / 8 + 1 - 0 = (offset + width - 1) / 8 + 1 from by omega,
    show offset % 8 = offset from by omega]
  rw [cross_byte_left_shift_eq (fun b hbm => hb b (List.mem_of_mem_take hbm)) (by omega)]
  simp only [ok_bind]
  rfl

lemma extract_ok_le {data : List Nat} {offset width : Nat} {l : List Nat}
    (h : extract data offset width = .ok l) (hw : 1 ≤ width) :
    offset + width ≤ 8 * data.length := by
  unfold extract at h
  by_cases hc : (to_bitwise_addr (offset + width - 1)).1 < data.length
  · simp only [to_bitwise_addr] at hc
    omega
  · rw [if_neg hc] at h
    exact absurd h (by simp)

lemma make_prim_int {fuel : Nat} (id : String) {w : Nat} (tg : Bool) {data : List Nat}
    {offset : Nat} (ctx : Option Ctx) (hw2 : 2 ≤ w) (hw64 : w ≤ 64) (hoff : offset < 8)
    (hfit : offset + w ≤ 8 * data.length) (hb : ∀ b ∈ data, b < 256) :
    ∃ raw, make (fuel + 1) (.prim id w tg) data offset ctx =
      .ok (.prim id w (.vint (decode_integer_value data offset w)) tg raw, ctx) := by
  obtain ⟨l, hl⟩ := extract_ok (show offset ≤ 7 by omega) (by omega) hfit hb
  refine ⟨l, ?_⟩
  rw [make]
  have hty : spec_type (.prim id w tg) = .ok .tInteger := by
    simp only [spec_type]
    rw [if_neg (by omega : ¬ w = 0), if_neg (by omega : ¬ w = 1), if_pos (by omega : w ≤ 64)]
  simp only [hty, ok_bind]
  rw [if_neg (by omega : ¬ offset ≥ 8), if_neg (by omega : ¬ w = 0),
    if_neg (by omega : ¬ w = 1)]
  simp only [hl, ok_bind]

lemma make_helper_int_inv {fuel : Nat} {id : String} {w : Nat} {h : Helper} {tg : Bool}
    {data : List Nat} {offset : Nat} {ctx : Option Ctx} {f : AbsField} {octx : Option Ctx}
    (hh : h = .sizeField ∨ h = .lengthField)
    (hmk : make (fuel + 1) (.helper id w h tg) data offset ctx = .ok (f, octx)) :
    ∃ raw, f = .prim id w (.vint (decode_integer_value data offset w)) tg raw ∧ octx = ctx := by
  rcases hh with rfl | rfl <;>
  · rw [make] at hmk
    obtain ⟨t, hty, hmk⟩ := bind_ok_inv hmk
    by_cases hoff : offset ≥ 8
    · rw [if_pos hoff] at hmk
      exact absurd hmk (by simp)
    · rw [if_neg hoff] at hmk
      obtain ⟨l, hl, hmk⟩ := bind_ok_inv hmk
      simp only [Except.ok.injEq, Prod.mk.injEq] at hmk
      exact ⟨l, hmk.1.symm, hmk.2.symm⟩

lemma make_helper_core (fuel : Nat) (id : String) (w : Nat) (h : Helper) (tg : Bool)
    (data : List Nat) (offset : Nat) :
    ∃ r : Except Err AbsField,
      ∀ ctx, make fuel (.helper id w h tg) data offset ctx = r.map (fun f => (f, ctx)) := by
  cases fuel with
  | zero => exact ⟨.error .fuelOut, fun ctx => by rw [make]; rfl⟩
  | succ fuel =>
    cases h with
    | ascii =>
      by_cases hv : ((tg || decide (1 ≤ w)) && Helper.is_valid .ascii w) = true
      swap
      · refine ⟨.error .absSpec, fun ctx => ?_⟩
        rw [make]
        have hty : spec_type (.helper id w .ascii tg) = .error .absSpec := by
          simp only [spec_type]
          rw [if_neg hv]
        simp only [hty, error_bind]
        rfl
      · have hty : spec_type (.helper id w .ascii tg) = .ok .tHelperClass := by
          simp only [spec_type]
          rw [if_pos hv]
        by_cases hoff : offset ≥ 8
        · refine ⟨.error .absDecoding, fun ctx => ?_⟩
          rw [make]
          simp only [hty, ok_bind]
          rw [if_pos hoff]
          rfl
        · cases hx : extract data offset w with
          | error e =>
            refine ⟨.error e, fun ctx => ?_⟩
            rw [make]
            simp only [hty, ok_bind]
            rw [if_neg hoff]
            simp only [hx, error_bind]
            rfl
          | ok l =>
            refine ⟨.ok (.prim id w (.vstr (ascii_of_bytes l)) tg l), fun ctx => ?_⟩
            rw [make]
            simp only [hty, ok_bind]
            rw [if_neg hoff]
            simp only [hx, ok_bind]
            rfl
    | rawData =>
      by_cases hv : ((tg || decide (1 ≤ w)) && Helper.is_valid .rawData w) = true
      swap
      · refine ⟨.error .absSpec, fun ctx => ?_⟩
        rw [make]
        have hty : spec_type (.helper id w .rawData tg) = .error .absSpec := by
          simp only [spec_type]
          rw [if_neg hv]
        simp only [hty, error_bind]
        rfl
      · have hty : spec_type (.helper id w .rawData tg) = .ok .tHelperClass := by
          simp only [spec_type]
          rw [if_pos hv]
        by_cases hoff : offset ≥ 8
        · refine ⟨.error .absDecoding, fun ctx => ?_⟩
          rw [make]
          simp only [hty, ok_bind]
          rw [if_pos hoff]
          rfl
        · cases hx : extract data offset w with
          | error e =>
            refine ⟨.error e, fun ctx => ?_⟩
            rw [make]
            simp only [hty, ok_bind]
            rw [if_neg hoff]
            simp only [hx, error_bind]
            rfl
          | ok l =>
            refine ⟨.ok (.prim id w (.vstr (hex_of_bytes l)) tg l), fun ctx => ?_⟩
            rw [make]
            simp only [hty, ok_bind]
            rw [if_neg hoff]
            simp only [hx, ok_bind]
            rfl
    | sizeField =>
      by_cases hv : ((tg || decide (1 ≤ w)) && Helper.is_valid .sizeField w) = true
      swap
      · refine ⟨.error .absSpec, fun ctx => ?_⟩
        rw [make]
        have hty : spec_type (.helper id w .sizeField tg) = .error .absSpec := by
          simp only [spec_type]
          rw [if_neg hv]
        simp only [hty, error_bind]
        rfl
      · have hty : spec_type (.helper id w .sizeField tg) = .ok .tHelperClass := by
          simp only [spec_type]
          rw [if_pos hv]
        by_cases hoff : offset ≥ 8
        · refine ⟨.error .absDecoding, fun ctx => ?_⟩
          rw [make]
          simp only [hty, ok_bind]
          rw [if_pos hoff]
          rfl
        · cases hx : extract data offset w with
          | error e =>
            refine ⟨.error e, fun ctx => ?_⟩
            rw [make]
            simp only [hty, ok_bind]
            rw [if_neg hoff]
            simp only [hx, error_bind]
            rfl
          | ok l =>
            refine ⟨.ok (.prim id w (.vint (decode_integer_value data offset w)) tg l), fun ctx => ?_⟩
            rw [make]
            simp only [hty, ok_bind]
            rw [if_neg hoff]
            simp only [hx, ok_bind]
            rfl
    | lengthField =>
      by_cases hv : ((tg || decide (1 ≤ w)) && Helper.is_valid .lengthField w) = true
      swap
      · refine ⟨.error .absSpec, fun ctx => ?_⟩
        rw [make]
        have hty : spec_type (.helper id w .lengthField tg) = .error .absSpec := by
          simp only [spec_type]
          rw [if_neg hv]
        simp only [hty, error_bind]
        rfl
      · have hty : spec_type (.helper id w .lengthField tg) = .ok .tHelperClass := by
          simp only [spec_type]
          rw [if_pos hv]
        by_cases hoff : offset ≥ 8
        · refine ⟨.error .absDecoding, fun ctx => ?_⟩
          rw [make]
          simp only [hty, ok_bind]
          rw [if_pos hoff]
          rfl
        · cases hx : extract data offset w with
          | error e =>
            refine ⟨.error e, fun ctx => ?_⟩
            rw [make]
            simp only [hty, ok_bind]
            rw [if_neg hoff]
            simp only [hx, error_bind]
            rfl
          | ok l =>
            refine ⟨.ok (.prim id w (.vint (decode_integer_value data offset w)) tg l), fun ctx => ?_⟩
            rw [make]
            simp only [hty, ok_bind]
            rw [if_neg hoff]
            simp only [hx, ok_bind]
            rfl

/-- **C9**: a dynamic array's decoded field does not depend on the enclosing
decode context: the header is an ordinary integer decode that never reads the
context, and the factory is invoked for the elements without the enclosing
context, so any two contexts produce the identical decoded field (header and
element list included).  Consequently a switch inside an element specification
can only reference fields tagged within that same element. -/
theorem dynarray_context_independent (fuel : Nat) (id : String) (mode : ArrMode)
    (unit : Nat) (elem : Option (List AbsSpec ⊕ Helper)) (data : List Nat) (offset : Nat)
    (c1 c2 : Option Ctx) :
    (make fuel (.dynArray id mode unit elem) data offset c1).map Prod.fst =
    (make fuel (.dynArray id mode unit elem) data offset c2).map Prod.fst := by
  cases fuel with
  | zero => rfl
  | succ fuel =>
    cases mode with
    | nbElts =>
      rw [make, make]
      cases hty : spec_type (.dynArray id .nbElts unit elem) with
      | error e =>
        simp only [hty, error_bind]
      | ok t =>
        simp only [hty, ok_bind]
        by_cases hoff : offset ≥ 8
        · rw [if_pos hoff, if_pos hoff]
        · rw [if_neg hoff, if_neg hoff]
          obtain ⟨r, hr⟩ := make_helper_core fuel "length" unit .lengthField false
            (data.drop (to_bitwise_addr offset).1) (to_bitwise_addr offset).2
          rw [hr (some (c1.getD [])), hr (some (c2.getD []))]
          cases r with
          | error e =>
            simp only [Except.map, error_bind]
          | ok hf =>
            simp only [Except.map, ok_bind]
            cases hloop : nbEltsLoop fuel hf.intValue (dynChildSpec unit elem) data (offset + hf.bitWidth) with
            | error e =>
              simp only [hloop, error_bind]
            | ok pr =>
              obtain ⟨elts, endOff⟩ := pr
              simp only [hloop, ok_bind]
              by_cases hw : endOff - offset > 0
              · rw [if_pos hw, if_pos hw]
                cases hx : extract data offset (endOff - offset) with
                | error e => simp only [hx, error_bind]
                | ok raw => simp only [hx, ok_bind]
              · rw [if_neg hw, if_neg hw]
                rfl
    | sizeExcl =>
      rw [make, make]
      cases hty : spec_type (.dynArray id .sizeExcl unit elem) with
      | error e =>
        simp only [hty, error_bind]
      | ok t =>
        simp only [hty, ok_bind]
        by_cases hoff : offset ≥ 8
        · rw [if_pos hoff, if_pos hoff]
        · rw [if_neg hoff, if_neg hoff]
          obtain ⟨r, hr⟩ := make_helper_core fuel "size" unit .sizeField false
            (data.drop (to_bitwise_addr offset).1) (to_bitwise_addr offset).2
          rw [hr (some (c1.getD [])), hr (some (c2.getD []))]
          cases r with
          | error e =>
            simp only [Except.map, error_bind]
          | ok hf =>
            simp only [Except.map, ok_bind]
            cases hloop : sizeLoop fuel (dynChildSpec unit elem) data (offset + (hf.intValue + 1) * hf.bitWidth) (offset + hf.bitWidth) with
            | error e =>
              simp only [hloop, error_bind]
            | ok pr =>
              obtain ⟨elts, endOff⟩ := pr
              simp only [hloop, ok_bind]
              by_cases hw : endOff - offset > 0
              · rw [if_pos hw, if_pos hw]
                cases hx : extract data offset (endOff - offset) with
                | error e => simp only [hx, error_bind]
                | ok raw => simp only [hx, ok_bind]
              · rw [if_neg hw, if_neg hw]
                rfl
    | sizeIncl =>
      rw [make, make]
      cases hty : spec_type (.dynArray id .sizeIncl unit elem) with
      | error e =>
        simp only [hty, error_bind]
      | ok t =>
        simp only [hty, ok_bind]
        by_cases hoff : offset ≥ 8
        · rw [if_pos hoff, if_pos hoff]
        · rw [if_neg hoff, if_neg hoff]
          obtain ⟨r, hr⟩ := make_helper_core fuel "size" unit .sizeField false
            (data.drop (to_bitwise_addr offset).1) (to_bitwise_addr offset).2
          rw [hr (some (c1.getD [])), hr (some (c2.getD []))]
          cases r with
          | error e =>
            simp only [Except.map, error_bind]
          | ok hf =>
            simp only [Except.map, ok_bind]
            cases hloop : sizeLoop fuel (dynChildSpec unit elem) data (offset + hf.intValue * hf.bitWidth) (offset + hf.bitWidth) with
            | error e =>
              simp only [hloop, error_bind]
            | ok pr =>
              obtain ⟨elts, endOff⟩ := pr
              simp only [hloop, ok_bind]
              by_cases hw : endOff - offset > 0
              · rw [if_pos hw, if_pos hw]
                cases hx : extract data offset (endOff - offset) with
                | error e => simp only [hx, error_bind]
                | ok raw => simp only [hx, ok_bind]
              · rw [if_neg hw, if_neg hw]
                rfl

/-- Witness for C1: extracting the 13 bits at offset 3 of `CA FE DE` yields
`57 60`-style left-aligned bytes, equal on both implementations. -/
theorem extract_eq_reference_witness :
    extract [202, 254, 222] 3 13 = .ok (extract_reference [202, 254, 222] 3 13) ∧
    extract_reference [202, 254, 222] 3 13 = [87, 240] :=
  ⟨extract_eq_reference (by decide) (by decide) (by decide) (by decide) (by decide),
   by rfl⟩

/-- The duplicate-tag branch of the child loop: a child that decodes to a
tagged field whose identifier is already bound in the running context makes
the whole child loop fail with `AbsDecodingError`. -/
lemma structChildren_dup {fuel : Nat} (s : AbsSpec) (rest : List AbsSpec)
    (data : List Nat) (offset : Nat) (ctx : Ctx) (child : AbsField) (octx : Option Ctx)
    (hmk : make fuel s (data.drop (to_bitwise_addr offset).1) (to_bitwise_addr offset).2
      (some ctx) = .ok (child, octx))
    (htag : child.isTagged = true)
    (hdup : (ctxFind (octx.getD ctx) child.id).isSome = true) :
    structChildren (fuel + 1) (s :: rest) data offset ctx = .error .absDecoding := by
  rw [structChildren]
  simp only [hmk, ok_bind]
  unfold registerTagged
  rw [if_pos htag]
  cases hfind : ctxFind (octx.getD ctx) child.id with
  | none => rw [hfind] at hdup; exact absurd hdup (by simp)
  | some f => simp only [hfind, error_bind]

/-- **C6**: registering a decoded tagged child whose identifier already has a
binding in the active decode context aborts the struct decode with a decoding
error; in particular a struct of two tagged integer fields sharing one
identifier always fails this way, the first child having bound the identifier
that the second then duplicates. -/
theorem struct_duplicate_tag :
    (∀ (fuel : Nat) (s : AbsSpec) (rest : List AbsSpec) (data : List Nat) (offset : Nat)
       (ctx : Ctx) (child : AbsField) (octx : Option Ctx),
       make fuel s (data.drop (to_bitwise_addr offset).1) (to_bitwise_addr offset).2
         (some ctx) = .ok (child, octx) →
       child.isTagged = true →
       (ctxFind (octx.getD ctx) child.id).isSome = true →
       structChildren (fuel + 1) (s :: rest) data offset ctx = .error .absDecoding) ∧
    (∀ (fuel : Nat) (sid id : String) (w1 w2 : Nat) (data : List Nat),
       2 ≤ w1 → w1 ≤ 64 → 2 ≤ w2 → w2 ≤ 64 → w1 + w2 ≤ 8 * data.length →
       (∀ b ∈ data, b < 256) →
       make (fuel + 4) (.struct sid [.prim id w1 true, .prim id w2 true]) data 0 none =
         .error .absDecoding) := by
  constructor
  · intro fuel s rest data offset ctx child octx hmk htag hdup
    exact structChildren_dup s rest data offset ctx child octx hmk htag hdup
  · intro fuel sid id w1 w2 data hw1 h164 hw2 h264 hfit hb
    have hvalid : specList_valid [.prim id w1 true, .prim id w2 true] = true := by
      simp only [specList_valid, spec_valid, if_true, Bool.and_eq_true, decide_eq_true_eq,
        and_true]
      exact ⟨⟨by omega, by omega⟩, by omega, by omega⟩
    have hty : spec_type (.struct sid [.prim id w1 true, .prim id w2 true]) = .ok .tStruct := by
      simp only [spec_type]
      rw [if_pos hvalid]
    rw [make]
    simp only [hty, ok_bind]
    rw [if_neg (by omega : ¬ (0 : Nat) ≥ 8)]
    have h0 : to_bitwise_addr 0 = (0, 0) := rfl
    obtain ⟨raw1, h1⟩ := @make_prim_int (fuel + 1) id w1 true data 0 (some ([] : Ctx)) hw1
      h164 (by omega) (by omega : (0 : Nat) + w1 ≤ 8 * data.length) hb
    have hb2 : ∀ b ∈ data.drop (w1 / 8), b < 256 :=
      fun b hbm => hb b (List.mem_of_mem_drop hbm)
    obtain ⟨raw2, h2⟩ := @make_prim_int fuel id w2 true (data.drop (w1 / 8)) (w1 % 8)
      (some [(id, AbsField.prim id w1 (.vint (decode_integer_value data 0 w1)) true raw1)]) hw2
      h264 (by omega) (by rw [List.length_drop]; omega) hb2
    have hsc : structChildren (fuel + 3) [AbsSpec.prim id w1 true, AbsSpec.prim id w2 true]
        data 0 [] = .error .absDecoding := by
      rw [structChildren]
      simp only [h0, List.drop_zero, h1, ok_bind, Option.getD_some]
      rw [show registerTagged
          (.prim id w1 (.vint (decode_integer_value data 0 w1)) true raw1) [] =
        .ok [(id, AbsField.prim id w1 (.vint (decode_integer_value data 0 w1)) true raw1)]
        from rfl]
      simp only [ok_bind, AbsField.bitWidth, Nat.zero_add]
      rw [structChildren_dup (AbsSpec.prim id w2 true) [] data w1
        [(id, AbsField.prim id w1 (.vint (decode_integer_value data 0 w1)) true raw1)]
        (AbsField.prim id w2
          (.vint (decode_integer_value (data.drop (w1 / 8)) (w1 % 8) w2)) true raw2)
        (some [(id, AbsField.prim id w1 (.vint (decode_integer_value data 0 w1)) true raw1)])
        h2 rfl (by simp [ctxFind, AbsField.id])]
      rfl
    simp only [Option.getD_none, hsc, error_bind]

/-- Witness for C6: a struct of two tagged fields both named `x` errors on a
two-byte input; a single tagged field named `x` under a context already
binding `x` aborts the child loop. -/
theorem struct_duplicate_tag_witness :
    (make 4 (.struct "s" [.prim "x" 3 true, .prim "x" 5 true]) [202] 0 none =
      .error .absDecoding) ∧
    (structChildren 2 [.prim "x" 5 true] [202, 254] 0
      [("x", .prim "x" 3 (.vint 6) true [192])] = .error .absDecoding) := by
  constructor
  · exact struct_duplicate_tag.2 0 "s" "x" 3 5 [202] (by decide) (by decide) (by decide)
      (by decide) (by decide) (by decide)
  · exact struct_duplicate_tag.1 1 (.prim "x" 5 true) [] [202, 254] 0
      [("x", .prim "x" 3 (.vint 6) true [192])]
      (.prim "x" 5 (.vint 25) true [200]) (some [("x", .prim "x" 3 (.vint 6) true [192])])
      (by rfl) (by rfl) (by rfl)

/-- **C10**: a struct whose children carry the same identifier untagged
decodes without error: the ordered mapping keeps a single entry for the
shared identifier — the later child's field, which replaced the earlier one
in place — while the struct's bit width still counts the bits both children
consumed. -/
theorem struct_duplicate_untagged (fuel : Nat) (sid id : String) (w1 w2 : Nat)
    (data : List Nat) (hw1 : 2 ≤ w1) (h164 : w1 ≤ 64) (hw2 : 2 ≤ w2) (h264 : w2 ≤ 64)
    (hfit : w1 + w2 ≤ 8 * data.length) (hb : ∀ b ∈ data, b < 256) :
    ∃ raw2 rawS,
      make (fuel + 4) (.struct sid [.prim id w1 false, .prim id w2 false]) data 0 none =
        .ok (.struct sid (w1 + w2)
          [(id, .prim id w2
            (.vint (decode_integer_value (data.drop (w1 / 8)) (w1 % 8) w2)) false raw2)]
          rawS, none) := by
  have hvalid : specList_valid [.prim id w1 false, .prim id w2 false] = true := by
    simp only [specList_valid, spec_valid, Bool.false_eq_true, if_false, Bool.and_eq_true,
      decide_eq_true_eq, and_true]
    omega
  have hty : spec_type (.struct sid [.prim id w1 false, .prim id w2 false]) = .ok .tStruct := by
    simp only [spec_type]
    rw [if_pos hvalid]
  have h0 : to_bitwise_addr 0 = (0, 0) := rfl
  obtain ⟨raw1, h1⟩ := @make_prim_int (fuel + 1) id w1 false data 0 (some ([] : Ctx)) hw1
    h164 (by omega) (by omega : (0 : Nat) + w1 ≤ 8 * data.length) hb
  have hb2 : ∀ b ∈ data.drop (w1 / 8), b < 256 :=
    fun b hbm => hb b (List.mem_of_mem_drop hbm)
  obtain ⟨raw2, h2⟩ := @make_prim_int fuel id w2 false (data.drop (w1 / 8)) (w1 % 8)
    (some ([] : Ctx)) hw2 h264 (by omega)
    (by rw [List.length_drop]; omega) hb2
  have h2a : make (fuel + 1) (.prim id w2 false) (data.drop ((to_bitwise_addr w1).1))
      ((to_bitwise_addr w1).2) (some ([] : Ctx)) =
      .ok (.prim id w2
        (.vint (decode_integer_value (data.drop (w1 / 8)) (w1 % 8) w2)) false raw2,
        some ([] : Ctx)) := h2
  obtain ⟨rawS, hS⟩ := @extract_ok data 0 (w1 + w2)
    (by omega) (by omega) (by omega) hb
  refine ⟨raw2, rawS, ?_⟩
  have hsc : structChildren (fuel + 3) [AbsSpec.prim id w1 false, AbsSpec.prim id w2 false]
      data 0 [] =
      .ok ([.prim id w1 (.vint (decode_integer_value data 0 w1)) false raw1,
            .prim id w2
              (.vint (decode_integer_value (data.drop (w1 / 8)) (w1 % 8) w2)) false raw2],
           w1 + w2, []) := by
    rw [structChildren]
    simp only [h0, List.drop_zero, h1, ok_bind, Option.getD_some]
    rw [show registerTagged
        (.prim id w1 (.vint (decode_integer_value data 0 w1)) false raw1) [] =
      .ok [] from rfl]
    simp only [ok_bind, AbsField.bitWidth, Nat.zero_add]
    rw [structChildren]
    simp only [h2a, ok_bind, Option.getD_some]
    rw [show registerTagged
        (.prim id w2 (.vint (decode_integer_value (data.drop (w1 / 8)) (w1 % 8) w2)) false
          raw2) [] = .ok [] from rfl]
    simp only [ok_bind, AbsField.bitWidth]
    rw [structChildren]
    simp only [ok_bind]
  rw [make]
  simp only [hty, ok_bind]
  rw [if_neg (by omega : ¬ (0 : Nat) ≥ 8)]
  simp only [Option.getD_none, hsc, ok_bind, Nat.sub_zero]
  rw [if_pos (by omega : w1 + w2 > 0)]
  simp only [hS, ok_bind]
  simp [odInsert, AbsField.id, List.foldl]

/-- Witness for C10: two untagged 3- and 5-bit fields both named `x` over the
byte `CA` decode to a one-entry struct of width 8 holding the second field
(value `01010 = 10`). -/
theorem struct_duplicate_untagged_witness :
    ∃ raw2 rawS,
      make 4 (.struct "s" [.prim "x" 3 false, .prim "x" 5 false]) [202] 0 none =
        .ok (.struct "s" (3 + 5)
          [("x", .prim "x" 5
            (.vint (decode_integer_value ([202].drop (3 / 8)) (3 % 8) 5)) false raw2)]
          rawS, none) :=
  struct_duplicate_untagged 0 "s" "x" 3 5 [202] (by decide) (by decide) (by decide)
    (by decide) (by decide) (by decide)

/-- `while l_offset < l_end_offset`: when the element loop of a size-driven
dynamic array returns, the cursor has reached or passed the end bound (the
guard merely became false; an overshoot is not detected). -/
lemma sizeLoop_ge {cs : AbsSpec} {data : List Nat} {endOff : Nat} :
    ∀ {fuel off : Nat} {elts : List AbsField} {fin : Nat},
      sizeLoop fuel cs data endOff off = .ok (elts, fin) → endOff ≤ fin := by
  intro fuel
  induction fuel with
  | zero =>
    intro off elts fin h
    rw [sizeLoop] at h
    exact absurd h (by simp)
  | succ fuel ih =>
    intro off elts fin h
    rw [sizeLoop] at h
    by_cases hlt : off < endOff
    · rw [if_pos hlt] at h
      obtain ⟨⟨e, c⟩, hmk, h⟩ := bind_ok_inv h
      obtain ⟨⟨rest, fin2⟩, hloop, h⟩ := bind_ok_inv h
      simp only [Except.ok.injEq, Prod.mk.injEq] at h
      obtain ⟨-, rfl⟩ := h
      exact ih hloop
    · rw [if_neg hlt] at h
      simp only [Except.ok.injEq, Prod.mk.injEq] at h
      omega

/-- **C2** (amended): a size-driven dynamic array's header is a `unit`-bit
integer; on success the array's total bit width covers at least the loop's
end bound — `(headerValue + 1) * unit` bits including the header in
`SIZE_EXCL` mode (so `headerValue * unit` bits follow the header, not
`(headerValue + 1) * unit`), and `headerValue * unit` bits including the
header in `SIZE_INCL` mode.  The bound is only a lower bound: the loop stops
at the first cursor at or past it, and an element that carries the cursor
beyond the bound is kept silently. -/
theorem dynarray_size_bounds (fuel : Nat) (id : String) (unit : Nat)
    (elem : Option (List AbsSpec ⊕ Helper)) (data : List Nat) (offset : Nat)
    (ctx octx : Option Ctx) (w : Nat) (hid : String) (hdr : AbsField)
    (elts : List AbsField) (raw : List Nat) :
    (make (fuel + 1) (.dynArray id .sizeExcl unit elem) data offset ctx =
        .ok (.dynArray id w hid hdr elts raw, octx) →
      hdr.bitWidth = unit ∧ (hdr.intValue + 1) * unit ≤ w) ∧
    (make (fuel + 1) (.dynArray id .sizeIncl unit elem) data offset ctx =
        .ok (.dynArray id w hid hdr elts raw, octx) →
      hdr.bitWidth = unit ∧ hdr.intValue * unit ≤ w) := by
  constructor <;>
  · intro hmk
    rw [make] at hmk
    obtain ⟨t, hty, hmk⟩ := bind_ok_inv hmk
    by_cases hoff : offset ≥ 8
    · rw [if_pos hoff] at hmk
      exact absurd hmk (by simp)
    · rw [if_neg hoff] at hmk
      obtain ⟨⟨header, octx1⟩, hh, hmk⟩ := bind_ok_inv hmk
      cases fuel with
      | zero =>
        rw [make] at hh
        exact absurd hh (by simp)
      | succ g =>
        obtain ⟨hraw, rfl, rfl⟩ := make_helper_int_inv (by simp) hh
        simp only [AbsField.intValue, AbsField.value, AbsField.bitWidth] at hmk
        obtain ⟨⟨elts2, fin⟩, hloop, hmk⟩ := bind_ok_inv hmk
        have hge := sizeLoop_ge hloop
        dsimp only at hmk
        have hkey : w = fin - offset ∧ hdr = .prim "size" unit
            (.vint (decode_integer_value (data.drop (to_bitwise_addr offset).1)
              (to_bitwise_addr offset).2 unit)) false hraw := by
          by_cases hpos : fin - offset > 0
          · rw [if_pos hpos] at hmk
            obtain ⟨raw2, hraw2, hmk⟩ := bind_ok_inv hmk
            simp only [Except.ok.injEq, Prod.mk.injEq, AbsField.dynArray.injEq] at hmk
            obtain ⟨⟨-, hw, -, hhdr, -, -⟩, -⟩ := hmk
            exact ⟨hw.symm, hhdr.symm⟩
          · rw [if_neg hpos] at hmk
            obtain ⟨raw2, hraw2, hmk⟩ := bind_ok_inv hmk
            simp only [Except.ok.injEq, Prod.mk.injEq, AbsField.dynArray.injEq] at hmk
            obtain ⟨⟨-, hw, -, hhdr, -, -⟩, -⟩ := hmk
            exact ⟨hw.symm, hhdr.symm⟩
        obtain ⟨rfl, rfl⟩ := hkey
        refine ⟨rfl, ?_⟩
        simp only [AbsField.intValue, AbsField.value, AbsField.bitWidth]
        omega

/-- Witness for C2: a `SIZE_EXCL` byte array with header value 2 spans 24
bits in total — the 8-bit header plus `2 * 8` element bits — and its header
is an 8-bit integer field. -/
theorem dynarray_size_bounds_witness :
    AbsField.bitWidth (.prim "size" 8 (.vint 2) false [2]) = 8 ∧
    (AbsField.intValue (.prim "size" 8 (.vint 2) false [2]) + 1) * 8 ≤ 24 :=
  (dynarray_size_bounds 9 "a" 8 none [2, 170, 187] 0 none none 24 "size"
    (.prim "size" 8 (.vint 2) false [2])
    [.prim "child" 8 (.vint 170) false [170], .prim "child" 8 (.vint 187) false [187]]
    [2, 170, 187]).1 (by rfl)

/-- Counterexample for C2: decoding `02 AA BB` as a `SIZE_EXCL` byte array
consumes 24 bits in total, so the bits consumed after the 8-bit header are
16 = `headerValue * unit`, not `(headerValue + 1) * unit = 24` as the spec
states; and decoding `01 AA BB` as a `SIZE_EXCL` array of 16-bit structs ends
with the cursor at bit 24, past the computed bound `(1 + 1) * 8 = 16`, yet
succeeds silently instead of reporting a defect. -/
theorem dynarray_size_counterexample :
    (make 10 (.dynArray "a" .sizeExcl 8 none) [2, 170, 187] 0 none =
      .ok (.dynArray "a" 24 "size" (.prim "size" 8 (.vint 2) false [2])
        [.prim "child" 8 (.vint 170) false [170], .prim "child" 8 (.vint 187) false [187]]
        [2, 170, 187], none)) ∧
    (24 : Nat) - 8 ≠ (2 + 1) * 8 ∧
    (make 10 (.dynArray "a" .sizeExcl 8 (some (.inl [.prim "x" 16 false]))) [1, 170, 187] 0
      none =
      .ok (.dynArray "a" 24 "size" (.prim "size" 8 (.vint 1) false [1])
        [.struct "child" 16 [("x", .prim "x" 16 (.vint 43707) false [170, 187])] [170, 187]]
        [1, 170, 187], none)) ∧
    ¬ (24 : Nat) ≤ (1 + 1) * 8 :=
  ⟨by rfl, by decide, by rfl, by decide⟩

/-- A successfully decoded struct either consumed nothing or fits inside the
buffer: its raw capture via `extract` forces the final cursor within
`8 * len`. -/
lemma make_struct_width_le {fuel : Nat} {sid : String} {children : List AbsSpec}
    {data : List Nat} {offset : Nat} {ctx octx : Option Ctx} {f : AbsField}
    (h : make fuel (.struct sid children) data offset ctx = .ok (f, octx)) :
    f.bitWidth = 0 ∨ offset + f.bitWidth ≤ 8 * data.length := by
  cases fuel with
  | zero =>
    rw [make] at h
    exact absurd h (by simp)
  | succ fuel =>
    rw [make] at h
    obtain ⟨t, hty, h⟩ := bind_ok_inv h
    by_cases hoff : offset ≥ 8
    · rw [if_pos hoff] at h
      exact absurd h (by simp)
    · rw [if_neg hoff] at h
      obtain ⟨⟨fields, endOff, ctxF⟩, hsc, h⟩ := bind_ok_inv h
      dsimp only at h
      by_cases hw : endOff - offset > 0
      · rw [if_pos hw] at h
        obtain ⟨raw, hraw, h⟩ := bind_ok_inv h
        have hle := extract_ok_le hraw (by omega)
        simp only [Except.ok.injEq, Prod.mk.injEq] at h
        obtain ⟨hf, -⟩ := h
        right
        rw [← hf]
        simp only [AbsField.bitWidth]
        omega
      · rw [if_neg hw] at h
        obtain ⟨raw, hraw, h⟩ := bind_ok_inv h
        simp only [Except.ok.injEq, Prod.mk.injEq] at h
        obtain ⟨hf, -⟩ := h
        left
        rw [← hf]
        simp only [AbsField.bitWidth]
        omega

/-- Pairing hexadecimal digits halves the length. -/
lemma pairBytes_length : ∀ l : List Nat, (pairBytes l).length = l.length / 2
  | [] => rfl
  | [_] => by simp [pairBytes]
  | _ :: _ :: rest => by
    simp only [pairBytes, List.length_cons, pairBytes_length rest]
    omega

/-- **C3** (amended): a successful top-level decode reports as
`remaining_data` the input digits from position `decodedBits / 8 * 2` on —
the hexadecimal digits of every byte not wholly consumed, so a byte only
partially consumed is reported too — and the two statistics strings read
`"<N> bytes + <M> bits"` with `(N, M) = (bits / 8, bits % 8)` for the
decoded bit count and for the remaining bit count
`4 * |input| - decodedBits`; the decoded bit count never exceeds the input's
`4 * |input|` bits. -/
theorem abs_init_reports (fuel : Nat) (hexDigits : List Nat) (spec : List AbsSpec)
    (r : AbsResult) (h : AdvancedBinaryStructure fuel hexDigits spec = .ok r) :
    r.decoded_data.bitWidth ≤ 4 * hexDigits.length ∧
    r.remaining_data = hexDigits.drop (r.decoded_data.bitWidth / 8 * 2) ∧
    r.stat_decoded = toString (r.decoded_data.bitWidth / 8) ++ " bytes + " ++
      toString (r.decoded_data.bitWidth % 8) ++ " bits" ∧
    r.stat_remaining =
      toString ((hexDigits.length * 4 - r.decoded_data.bitWidth) / 8) ++ " bytes + " ++
      toString ((hexDigits.length * 4 - r.decoded_data.bitWidth) % 8) ++ " bits" := by
  unfold AdvancedBinaryStructure at h
  obtain ⟨bytes, hbytes, h⟩ := bind_ok_inv h
  obtain ⟨⟨root, octx⟩, hroot, h⟩ := bind_ok_inv h
  simp only [Except.ok.injEq] at h
  subst h
  unfold hex_str_to_u8 at hbytes
  by_cases heven : hexDigits.length % 2 ≠ 0
  · rw [if_pos heven] at hbytes
    exact absurd hbytes (by simp)
  · rw [if_neg heven] at hbytes
    simp only [Except.ok.injEq] at hbytes
    subst hbytes
    have hwle := make_struct_width_le hroot
    rw [pairBytes_length hexDigits] at hwle
    dsimp only
    refine ⟨by omega, rfl, rfl, rfl⟩

/-- Witness for C3: decoding a 9-bit field from `CAFE` (digit values
`[12, 10, 15, 14]`) reports the digits `FE` of the partially consumed second
byte as remaining. -/
theorem abs_init_reports_witness :
    ([15, 14] : List Nat) = [12, 10, 15, 14].drop (9 / 8 * 2) :=
  (abs_init_reports 10 [12, 10, 15, 14] [.prim "x" 9 false]
    ⟨[12, 10, 15, 14],
     .struct "root" 9 [("x", .prim "x" 9 (.vint 405) false [202, 128])] [202, 128],
     [15, 14], "1 bytes + 1 bits", "0 bytes + 7 bits"⟩ (by rfl)).2.1

/-- Counterexample for C3: the 9-bit decode of `CAFE` consumed one bit of
the second byte, and the reported `remaining_data` still contains that
byte's digits `FE` — not only the whole trailing bytes after the last
consumed bit, which here are none. -/
theorem abs_init_counterexample :
    (AdvancedBinaryStructure 10 [12, 10, 15, 14] [.prim "x" 9 false]).map
        (fun r => (r.decoded_data.bitWidth, r.remaining_data, r.stat_decoded,
          r.stat_remaining)) =
      .ok (9, [15, 14], "1 bytes + 1 bits", "0 bytes + 7 bits") ∧
    remaining_after_last_bit [12, 10, 15, 14] 9 = [] ∧
    ([15, 14] : List Nat) ≠ [] :=
  ⟨by rfl, by rfl, by decide⟩

end PyABS
